import Mathlib

/-! The S3-triggered price distribution loader `athena-distributions-trigger`.

A shallow embedding of `main.go`: `parseIntOrCrash`, `mapRowToPriceDistribution`
and `handler`, together with the pieces of the Go standard library they call
(`strconv.ParseInt`, `url.QueryUnescape`, the record bookkeeping of
`encoding/csv.Reader`).

Conventions.
* A Go `string` is a byte sequence; it is represented by a Lean `String`, one
  `Char` per byte. Every test the program makes on a byte is a comparison
  with an ASCII character.
* `uint64` arithmetic is arithmetic on `Nat` reduced modulo `2 ^ 64`; the
  conversions `int16(x)`, `int32(x)` are two's complement wrap-around on `Int`.
* `log.Fatalf` ends the process (`os.Exit(1)`): deferred calls do not run.
  A run-time panic (index out of range) unwinds the stack: deferred calls run.
-/

namespace AthenaDistributions

deriving instance DecidableEq for Except

/-! ## strconv -/

/-- The two error values of `strconv` that `ParseInt` can attach to a `NumError`
(`ErrSyntax`, `ErrRange`), and the base error. -/
inductive NumErr where
  | syntaxErr
  | rangeErr
  | baseErr
  deriving DecidableEq, Repr

/-- The function `lower` of `strconv`: `c | ('x' - 'X')`, on a byte. -/
def lower (c : Nat) : Nat := c ||| 32

/-- The digit value `ParseUint` gives a byte, before the comparison with the base:
`c - '0'` for a decimal digit, `lower(c) - 'a' + 10` for a letter, no value for
any other byte (the `default` case, a syntax error). -/
def digitOf (c : Char) : Option Nat :=
  if 48 ≤ c.toNat ∧ c.toNat ≤ 57 then some (c.toNat - 48)
  else if 97 ≤ lower c.toNat ∧ lower c.toNat ≤ 122 then some (lower c.toNat - 97 + 10)
  else none

/-- The constant `maxUint64`. -/
def maxUint64 : Nat := 2 ^ 64 - 1

/-- The digit loop of `strconv.ParseUint`: `n` is the accumulator, `cutoff` the
smallest number with `cutoff * base > maxUint64`, `maxVal` is `1<<bitSize - 1`.
The result is the pair `(value, err)` that Go returns. -/
def parseUintLoop (base cutoff maxVal : Nat) : List Char → Nat → Nat × Option NumErr
  | [], n => (n, none)
  | c :: cs, n =>
    match digitOf c with
    | none => (0, some .syntaxErr)
    | some d =>
      if d ≥ base then (0, some .syntaxErr)
      else if n ≥ cutoff then (maxVal, some .rangeErr)
      else
        let n' := (n * base) % 2 ^ 64
        let n1 := (n' + d) % 2 ^ 64
        if n1 < n' ∨ n1 > maxVal then (maxVal, some .rangeErr)
        else parseUintLoop base cutoff maxVal cs n1

/-- The function `strconv.ParseUint(s, base, bitSize)` for an explicit base
`2 ≤ base ≤ 36` and `1 ≤ bitSize ≤ 64` (the program calls it with base 10 and
bit sizes 16 and 32; the prefix detection of base 0 is not reached). -/
def ParseUint (s : List Char) (base bitSize : Nat) : Nat × Option NumErr :=
  if s = [] then (0, some .syntaxErr)
  else if ¬ (2 ≤ base ∧ base ≤ 36) then (0, some .baseErr)
  else parseUintLoop base (maxUint64 / base + 1) (2 ^ bitSize - 1) s 0

/-- The function `strconv.ParseInt(s, base, bitSize)`: an optional sign, then
`ParseUint`, then the comparison with `cutoff = 1 << (bitSize-1)`. The result
is the pair `(value, err)` that Go returns. -/
def ParseInt (s : String) (base bitSize : Nat) : Int × Option NumErr :=
  match s.toList with
  | [] => (0, some .syntaxErr)
  | c :: cs =>
    let neg := c = '-'
    let body := if c = '+' ∨ c = '-' then cs else c :: cs
    let (un, err) := ParseUint body base bitSize
    if err ≠ none ∧ err ≠ some .rangeErr then (0, err)
    else
      let cutoff := 2 ^ (bitSize - 1)
      if ¬ neg ∧ un ≥ cutoff then ((cutoff : Int) - 1, some .rangeErr)
      else if neg ∧ un > cutoff then (-(cutoff : Int), some .rangeErr)
      else (if neg then -(un : Int) else (un : Int), none)

/-! ## Ways a Go call can end -/

/-- How the evaluation of a Go expression ends: with a value, in `log.Fatalf`
(the process exits with status 1), or in a run-time panic. -/
inductive Exec (α : Type) where
  | ok (a : α)
  | fatal (msg : String)
  | panic (msg : String)
  deriving DecidableEq, Repr

/-- Sequencing of Go evaluations: the first call that does not return a value
ends the evaluation. -/
def Exec.bind {α β : Type} (x : Exec α) (f : α → Exec β) : Exec β :=
  match x with
  | .ok a => f a
  | .fatal m => .fatal m
  | .panic m => .panic m

instance : Monad Exec where
  pure := Exec.ok
  bind := Exec.bind

/-! ## main.go: rows to records -/

/-- The function `parseIntOrCrash`: `strconv.ParseInt`, and `log.Fatalf` when it
returns an error. -/
def parseIntOrCrash (s : String) (base bitSize : Nat) : Exec Int :=
  match ParseInt s base bitSize with
  | (result, none) => .ok result
  | (_, some _) => .fatal ("could not parse integer '" ++ s ++ "'")

/-- The conversion `int16(x)` of an `int64`: the low 16 bits, two's complement. -/
def toInt16 (x : Int) : Int := (x + 2 ^ 15) % 2 ^ 16 - 2 ^ 15

/-- The conversion `int32(x)` of an `int64`: the low 32 bits, two's complement. -/
def toInt32 (x : Int) : Int := (x + 2 ^ 31) % 2 ^ 32 - 2 ^ 31

/-- The struct `auctions_db.PriceDistribution`, with the five fields the program
sets (`int16`, `int16`, `int32`, `int32`, `int32`). -/
structure PriceDistribution where
  RealmID : Int
  AuctionHouseID : Int
  ItemID : Int
  BuyoutEach : Int
  Quantity : Int
  deriving DecidableEq, Repr

/-- The index expression `row[i]` on a `[]string`: a run-time panic when `i` is
not below `len(row)`. -/
def index (row : List String) (i : Nat) : Exec String :=
  match row.get? i with
  | some s => .ok s
  | none => .panic ("index out of range [" ++ toString i ++ "] with length "
      ++ toString row.length)

/-- The function `mapRowToPriceDistribution`: the five fields are evaluated in
the order they are written. -/
def mapRowToPriceDistribution (row : List String) : Exec PriceDistribution := do
  let c0 ← index row 0
  let realmID ← parseIntOrCrash c0 10 16
  let c1 ← index row 1
  let auctionHouseID ← parseIntOrCrash c1 10 16
  let c2 ← index row 2
  let itemID ← parseIntOrCrash c2 10 32
  let c3 ← index row 3
  let buyoutEach ← parseIntOrCrash c3 10 32
  let c4 ← index row 4
  let quantity ← parseIntOrCrash c4 10 32
  pure
    { RealmID := toInt16 realmID
      AuctionHouseID := toInt16 auctionHouseID
      ItemID := toInt32 itemID
      BuyoutEach := toInt32 buyoutEach
      Quantity := toInt32 quantity }

/-! ## net/url -/

/-- The function `ishex` of `net/url`. -/
def ishex (c : Char) : Bool :=
  (48 ≤ c.toNat ∧ c.toNat ≤ 57) ∨ (97 ≤ c.toNat ∧ c.toNat ≤ 102) ∨ (65 ≤ c.toNat ∧ c.toNat ≤ 70)

/-- The function `unhex` of `net/url`. -/
def unhex (c : Char) : Nat :=
  if 48 ≤ c.toNat ∧ c.toNat ≤ 57 then c.toNat - 48
  else if 97 ≤ c.toNat ∧ c.toNat ≤ 102 then c.toNat - 97 + 10
  else if 65 ≤ c.toNat ∧ c.toNat ≤ 70 then c.toNat - 65 + 10
  else 0

/-- The function `unescape(s, encodeQueryComponent)` of `net/url` on the bytes of
`s`: a `%` must be followed by two hexadecimal digits, otherwise the result is
`EscapeError` carrying the (at most three) offending bytes; `+` becomes a space.
Go checks the whole string first and decodes afterwards; the first malformed
`%` from the left decides the error either way. -/
def unescape : List Char → Except String (List Char)
  | [] => .ok []
  | c :: rest =>
    if c = '%' then
      match rest with
      | a :: b :: rest' =>
        if ishex a ∧ ishex b then
          match unescape rest' with
          | .ok t => .ok (Char.ofNat (unhex a * 16 + unhex b) :: t)
          | .error e => .error e
        else .error (String.mk [c, a, b])
      | _ => .error (String.mk (c :: rest))
    else
      match unescape rest with
      | .ok t => .ok ((if c = '+' then ' ' else c) :: t)
      | .error e => .error e

/-- The function `url.QueryUnescape`. -/
def QueryUnescape (s : String) : Except String String :=
  match unescape s.toList with
  | .ok t => .ok (String.mk t)
  | .error e => .error e

/-! ## encoding/csv

The reader's lexer (line splitting, quoting, skipping of empty lines) is the
library's; a stream is given here as the sequence of records that lexer yields
on it, each with the fields read and the lexical or I/O error met, if any. The
end of the sequence is `io.EOF`. What is modelled is the reader's own state:
`FieldsPerRecord`. -/

/-- The errors `csv.Reader.Read` returns: `io.EOF`, a lexical error of the
record (`ErrBareQuote`, `ErrQuote`) or a failed read of the underlying stream,
and `ErrFieldCount`. -/
inductive CsvError where
  | eof
  | lexical (what : String)
  | fieldCount
  deriving DecidableEq, Repr

/-- One record as the lexer of `csv.Reader` yields it: the fields, and the
error met while reading them (`none` for a well-formed record). -/
structure RawRecord where
  fields : List String
  err : Option String
  deriving DecidableEq, Repr

/-- A well-formed record with the given fields. -/
def rec (fields : List String) : RawRecord := ⟨fields, none⟩

/-- The state of a `csv.Reader`: the records not yet read, and `FieldsPerRecord`. -/
structure Reader where
  input : List RawRecord
  FieldsPerRecord : Int
  deriving DecidableEq, Repr

/-- The function `csv.NewReader`: `FieldsPerRecord` starts at 0, so the first
record read fixes the number of fields of every later one. -/
def NewReader (body : List RawRecord) : Reader := ⟨body, 0⟩

/-- The end of `readRecord`, "check or update the expected fields per record":
the result of reading one record, and the new `FieldsPerRecord`. -/
def readRecord (fieldsPerRecord : Int) (r : RawRecord) :
    Except CsvError (List String) × Int :=
  let err : Option CsvError := r.err.map CsvError.lexical
  if fieldsPerRecord > 0 then
    if (r.fields.length : Int) ≠ fieldsPerRecord ∧ err = none then
      (.error .fieldCount, fieldsPerRecord)
    else
      match err with
      | none => (.ok r.fields, fieldsPerRecord)
      | some e => (.error e, fieldsPerRecord)
  else
    let fpr := if fieldsPerRecord = 0 then (r.fields.length : Int) else fieldsPerRecord
    match err with
    | none => (.ok r.fields, fpr)
    | some e => (.error e, fpr)

/-- The method `(*csv.Reader).Read`. -/
def Reader.Read (r : Reader) : Except CsvError (List String) × Reader :=
  match r.input with
  | [] => (.error .eof, r)
  | x :: rest =>
    let (res, fpr) := readRecord r.FieldsPerRecord x
    (res, ⟨rest, fpr⟩)

/-! ## main.go: the handler -/

/-- The part of `events.S3EventRecord` the program reads: `S3.Bucket.Name` and
`S3.Object.Key`. -/
structure S3EventRecord where
  Bucket : String
  Key : String
  deriving DecidableEq, Repr

/-- The collaborators of one invocation. `NewDatabase` is the error of
`auctions_db.NewDatabase`, if any; `GetObject i bucket key` is what `download`
returns for the `i`-th notification: an error (of `session.NewSession` or of
`GetObjectWithContext`) or the content of the object; `Replace i batch` is the
error of `database.ReplacePriceDistributions` on the batch of the `i`-th
notification, if any. -/
structure World where
  NewDatabase : Option String
  GetObject : Nat → String → String → Except String (List RawRecord)
  Replace : Nat → List PriceDistribution → Option String

/-- The errors `handler` returns, one per `fmt.Errorf`, with the cause. -/
inductive HandlerError where
  /-- The error "error connecting to database". -/
  | connecting (cause : String)
  /-- The error "error decoding S3 object key". -/
  | decoding (cause : String)
  /-- The error "error downloading file". -/
  | downloading (cause : String)
  /-- The error "failed to read CSV header". -/
  | header (cause : CsvError)
  /-- The error "error reading CSV file". -/
  | reading (cause : CsvError)
  /-- The error "error inserting price distributions into database". -/
  | inserting (cause : String)
  deriving DecidableEq, Repr

/-- What an observer sees of one invocation, tagged with the position of the
notification in `event.Records`: a call of `download`, the stream it opened,
the first `Read` of the csv reader, a call of `ReplacePriceDistributions` with
its batch, and a `Close` of a stream. -/
inductive Event where
  | fetch (i : Nat) (bucket key : String)
  | opened (i : Nat)
  | parse (i : Nat)
  | write (i : Nat) (batch : List PriceDistribution)
  | closed (i : Nat)
  deriving DecidableEq, Repr

/-- How an invocation of `handler` ends: it returns (`nil` or an error), the
process exits in `log.Fatalf`, or a panic leaves the function. -/
inductive Outcome where
  | returned (err : Option HandlerError)
  | fatal (msg : String)
  | panicked (msg : String)
  deriving DecidableEq, Repr

/-- The state of an invocation: the events so far, and the stack of deferred
`file.Body.Close()` calls (most recent first). -/
structure Run where
  trace : List Event
  deferred : List Nat
  deriving DecidableEq, Repr

/-- A finished invocation. -/
structure Result where
  outcome : Outcome
  trace : List Event
  deriving DecidableEq, Repr

/-- Recording an event. -/
def Run.emit (st : Run) (e : Event) : Run := { st with trace := st.trace ++ [e] }

/-- The statement `defer file.Body.Close()` for the stream of notification `i`. -/
def Run.defer (st : Run) (i : Nat) : Run := { st with deferred := i :: st.deferred }

/-- Leaving `handler`: on a return or a panic the deferred calls run, last
deferred first; `log.Fatalf` exits the process without running them. -/
def Run.leave (st : Run) (o : Outcome) : Result :=
  match o with
  | .fatal m => ⟨.fatal m, st.trace⟩
  | o => ⟨o, st.trace ++ st.deferred.map Event.closed⟩

/-- How the inner `for` loop of `handler` ends: `break` at `io.EOF` with the
records appended so far, `return` of a read error, `log.Fatalf`, or a panic. -/
inductive Rows where
  | done (priceDistributions : List PriceDistribution)
  | failed (err : CsvError)
  | fatal (msg : String)
  | panicked (msg : String)
  deriving DecidableEq, Repr

/-- The inner `for` loop of `handler` (lines 85-94) on the records left in the
reader: `r.Read()`, `break` on `io.EOF`, `return` on any other error, otherwise
append `mapRowToPriceDistribution(row)`. -/
def readRows : List RawRecord → Int → List PriceDistribution → Rows
  | [], _, priceDistributions => .done priceDistributions
  | x :: rest, fieldsPerRecord, priceDistributions =>
    match Reader.Read ⟨x :: rest, fieldsPerRecord⟩ with
    | (.error .eof, _) => .done priceDistributions
    | (.error e, _) => .failed e
    | (.ok row, r) =>
      match mapRowToPriceDistribution row with
      | .ok pd => readRows rest r.FieldsPerRecord (priceDistributions ++ [pd])
      | .fatal m => .fatal m
      | .panic m => .panicked m

/-- The body of `handler` from `csv.NewReader` to the end of the inner loop
(lines 78-94) on the content of one file: the header is read and dropped,
then the rows are read. -/
inductive Parsed where
  | batch (priceDistributions : List PriceDistribution)
  | headerError (err : CsvError)
  | rowError (err : CsvError)
  | fatal (msg : String)
  | panicked (msg : String)
  deriving DecidableEq, Repr

/-- Lines 78-94 of `handler` on the content of one file. -/
def parseFile (body : List RawRecord) : Parsed :=
  let r := NewReader body
  match r.Read with
  | (.error e, _) => .headerError e
  | (.ok _, r) =>
    match readRows r.input r.FieldsPerRecord [] with
    | .done pds => .batch pds
    | .failed e => .rowError e
    | .fatal m => .fatal m
    | .panicked m => .panicked m

/-- The `for _, record := range event.Records` loop of `handler` (lines 64-102),
from the `i`-th notification on. -/
def handlerLoop (w : World) : Nat → List S3EventRecord → Run → Result
  | _, [], st => st.leave (.returned none)
  | i, record :: rest, st =>
    match QueryUnescape record.Key with
    | .error e => st.leave (.returned (some (.decoding e)))
    | .ok key =>
      let st := st.emit (.fetch i record.Bucket key)
      match w.GetObject i record.Bucket key with
      | .error e => st.leave (.returned (some (.downloading e)))
      | .ok body =>
        let st := (st.emit (.opened i)).defer i
        let st := st.emit (.parse i)
        match parseFile body with
        | .headerError e => st.leave (.returned (some (.header e)))
        | .rowError e => st.leave (.returned (some (.reading e)))
        | .fatal m => st.leave (.fatal m)
        | .panicked m => st.leave (.panicked m)
        | .batch priceDistributions =>
          let st := st.emit (.write i priceDistributions)
          match w.Replace i priceDistributions with
          | some e => st.leave (.returned (some (.inserting e)))
          | none => handlerLoop w (i + 1) rest st

/-- The function `handler`. -/
def handler (w : World) (event : List S3EventRecord) : Result :=
  match w.NewDatabase with
  | some e => ⟨.returned (some (.connecting e)), []⟩
  | none => handlerLoop w 0 event ⟨[], []⟩

/-! ## The words of the specification

The definitions of this section follow the specification, not the code: what it
means for a column to be a base-10 signed integer, and to fit a bit width. -/

/-- A decimal digit, `0` to `9`. -/
def isDecimalDigit (c : Char) : Bool := 48 ≤ c.toNat ∧ c.toNat ≤ 57

/-- The number a string of decimal digits denotes, continuing from `n`. -/
def natValue (ds : List Char) (n : Nat) : Nat :=
  ds.foldl (fun acc c => 10 * acc + (c.toNat - 48)) n

/-- The integer a column denotes when it is a base-10 signed integer: an
optional sign `+` or `-` followed by at least one decimal digit. -/
def decimalValue (s : String) : Option Int :=
  match s.toList with
  | [] => none
  | c :: cs =>
    let ds := if c = '+' ∨ c = '-' then cs else c :: cs
    if ds ≠ [] ∧ ds.all isDecimalDigit then
      some (if c = '-' then -(natValue ds 0 : Int) else (natValue ds 0 : Int))
    else none

/-- An integer within a signed bit width: `-2^(bits-1) ≤ v < 2^(bits-1)`. -/
def inWidth (bits : Nat) (v : Int) : Prop :=
  -(2 : Int) ^ (bits - 1) ≤ v ∧ v < (2 : Int) ^ (bits - 1)

instance (bits : Nat) (v : Int) : Decidable (inWidth bits v) := by
  unfold inWidth; infer_instance

/-- The declared bit width of the five fields, in column order. -/
def widthOf (col : Nat) : Nat := if col < 2 then 16 else 32

/-- A column that is a base-10 signed integer within a bit width, with its value. -/
def denotes (s : String) (bits : Nat) (v : Int) : Prop :=
  decimalValue s = some v ∧ inWidth bits v

/-- The integer value of column `col` of a row (0 when the column is absent or
is not a base-10 signed integer). -/
def columnInt (row : List String) (col : Nat) : Int :=
  ((row.get? col).bind decimalValue).getD 0

/-- The record of a row as the specification describes it: the 5-tuple of the
integer values of the first five columns, in the fixed order. -/
def recordOfRow (row : List String) : PriceDistribution :=
  { RealmID := columnInt row 0
    AuctionHouseID := columnInt row 1
    ItemID := columnInt row 2
    BuyoutEach := columnInt row 3
    Quantity := columnInt row 4 }

/-- A well-formed data row: at least five columns, and each of the first five a
base-10 signed integer within the bit width of its field. -/
def wellFormedRow (row : List String) : Prop :=
  5 ≤ row.length ∧ ∀ col, col < 5 → ∃ v, denotes (row.getD col "") (widthOf col) v

/-- A malformed data row: too few columns, or a column among the first five that
is not a base-10 signed integer within the bit width of its field. -/
def malformedRow (row : List String) : Prop :=
  row.length < 5 ∨ ∃ col, col < 5 ∧ ∀ v, ¬ denotes (row.getD col "") (widthOf col) v

/-- The field of a record that column `col` is mapped to. -/
def PriceDistribution.field (pd : PriceDistribution) (col : Nat) : Int :=
  match col with
  | 0 => pd.RealmID
  | 1 => pd.AuctionHouseID
  | 2 => pd.ItemID
  | 3 => pd.BuyoutEach
  | _ => pd.Quantity

/-- How one notification fares through the four steps the specification names:
decode, fetch, parse and write. -/
inductive Attempt where
  | succeeded (batch : List PriceDistribution)
  | decodeFailed (cause : String)
  | fetchFailed (cause : String)
  | parseFailed (how : Parsed)
  | writeFailed (batch : List PriceDistribution) (cause : String)
  deriving DecidableEq, Repr

/-- The four steps on the notification at position `i`: decode the key, fetch
the object, parse it into a batch, write the batch. -/
def attempt (w : World) (i : Nat) (n : S3EventRecord) : Attempt :=
  match QueryUnescape n.Key with
  | .error e => .decodeFailed e
  | .ok key =>
    match w.GetObject i n.Bucket key with
    | .error e => .fetchFailed e
    | .ok body =>
      match parseFile body with
      | .batch b =>
        match w.Replace i b with
        | none => .succeeded b
        | some e => .writeFailed b e
      | p => .parseFailed p

/-- The longest prefix of the notifications from position `i` on whose decode,
fetch, parse and write all succeed: for each, its position and its batch. -/
def goodRun (w : World) : Nat → List S3EventRecord → List (Nat × List PriceDistribution)
  | _, [] => []
  | i, n :: rest =>
    match attempt w i n with
    | .succeeded b => (i, b) :: goodRun w (i + 1) rest
    | _ => []

/-- The first notification from position `i` on that does not succeed in all
four steps: its position and how it fared. -/
def firstFailure (w : World) : Nat → List S3EventRecord → Option (Nat × Attempt)
  | _, [] => none
  | i, n :: rest =>
    match attempt w i n with
    | .succeeded _ => firstFailure w (i + 1) rest
    | a => some (i, a)

/-- The call of `ReplacePriceDistributions` made by the notification at position
`i` when it fails in its write: the call is made, and returns an error. -/
def Attempt.failedWrite (i : Nat) : Attempt → List (Nat × List PriceDistribution)
  | .writeFailed b _ => [(i, b)]
  | _ => []

/-- The calls of `ReplacePriceDistributions` made by the notification at
position `i`, successful or not. -/
def Attempt.calls (i : Nat) : Attempt → List (Nat × List PriceDistribution)
  | .succeeded b => [(i, b)]
  | .writeFailed b _ => [(i, b)]
  | _ => []

/-- How `handler` ends when the parsing of a file does not give a batch. -/
def Parsed.outcome : Parsed → Option Outcome
  | .batch _ => none
  | .headerError e => some (.returned (some (.header e)))
  | .rowError e => some (.returned (some (.reading e)))
  | .fatal m => some (.fatal m)
  | .panicked m => some (.panicked m)

/-- How `handler` ends at a notification that does not succeed (`none` for one
that succeeds: the loop goes on). -/
def Attempt.outcome : Attempt → Option Outcome
  | .succeeded _ => none
  | .decodeFailed e => some (.returned (some (.decoding e)))
  | .fetchFailed e => some (.returned (some (.downloading e)))
  | .parseFailed p => p.outcome
  | .writeFailed _ e => some (.returned (some (.inserting e)))

/-- A world for examples: the database opens, the `i`-th notification's object
has the `i`-th content of `files` (no such object beyond them), and
`ReplacePriceDistributions` fails exactly for the positions in `failing`. -/
def worldOf (files : List (List RawRecord)) (failing : List Nat) : World :=
  { NewDatabase := none
    GetObject := fun i _ _ =>
      match files.get? i with
      | some f => .ok f
      | none => .error "NoSuchKey"
    Replace := fun i _ => if i ∈ failing then some "write failed" else none }

/-- A header line of five columns. -/
def header5 : List String := ["realmID", "auctionHouseID", "itemID", "buyoutEach", "quantity"]

/-! ## Observations on a trace -/

/-- The position in `event.Records` of the notification an event belongs to. -/
def Event.index : Event → Nat
  | .fetch i _ _ => i
  | .opened i => i
  | .parse i => i
  | .write i _ => i
  | .closed i => i

/-- The batches of the calls of `ReplacePriceDistributions` made for the
notification at position `k`. -/
def writesOf (k : Nat) (trace : List Event) : List (List PriceDistribution) :=
  trace.filterMap fun e => match e with
    | .write i b => if i = k then some b else none
    | _ => none

/-- The calls of `ReplacePriceDistributions`, in call order: the position of
the notification and the batch. -/
def writeCalls (trace : List Event) : List (Nat × List PriceDistribution) :=
  trace.filterMap fun e => match e with
    | .write i b => some (i, b)
    | _ => none

/-- The streams opened, in the order they were opened. -/
def openedStreams (trace : List Event) : List Nat :=
  trace.filterMap fun e => match e with
    | .opened i => some i
    | _ => none

/-- The streams closed, in the order they were closed. -/
def closedStreams (trace : List Event) : List Nat :=
  trace.filterMap fun e => match e with
    | .closed i => some i
    | _ => none

/-! ## The loop, one notification at a time

A restatement of the loop of `handler` used in the proofs: what one iteration
adds to the trace, whether it defers a `Close`, and whether it leaves the
function. `handlerLoop_eq` below shows it describes `handlerLoop`. -/

/-- One iteration of the loop for the notification at position `i`: the events
it adds, whether a `Close` was deferred, and the outcome when the iteration
leaves `handler` (`none` when the loop goes on). -/
def stepOf (w : World) (i : Nat) (record : S3EventRecord) :
    List Event × Bool × Option Outcome :=
  match QueryUnescape record.Key with
  | .error e => ([], false, some (.returned (some (.decoding e))))
  | .ok key =>
    match w.GetObject i record.Bucket key with
    | .error e =>
      ([.fetch i record.Bucket key], false, some (.returned (some (.downloading e))))
    | .ok body =>
      let evs := [Event.fetch i record.Bucket key, .opened i, .parse i]
      match parseFile body with
      | .headerError e => (evs, true, some (.returned (some (.header e))))
      | .rowError e => (evs, true, some (.returned (some (.reading e))))
      | .fatal m => (evs, true, some (.fatal m))
      | .panicked m => (evs, true, some (.panicked m))
      | .batch b =>
        match w.Replace i b with
        | some e => (evs ++ [.write i b], true, some (.returned (some (.inserting e))))
        | none => (evs ++ [.write i b], true, none)

/-- The loop from position `i` on, without the state: the events added, the
`Close` calls deferred (most recent first), and the outcome. -/
def runFrom (w : World) : Nat → List S3EventRecord → List Event × List Nat × Outcome
  | _, [] => ([], [], .returned none)
  | i, record :: rest =>
    match stepOf w i record with
    | (evs, op, some o) => (evs, if op then [i] else [], o)
    | (evs, op, none) =>
      match runFrom w (i + 1) rest with
      | (evs', ds, o) => (evs ++ evs', ds ++ (if op then [i] else []), o)

/-! ## Lemmas on `strconv.ParseInt` -/

theorem digitOf_lt_ten (c : Char) (d : Nat) :
    (digitOf c = some d ∧ d < 10) ↔ (isDecimalDigit c = true ∧ d = c.toNat - 48) := by
  unfold digitOf isDecimalDigit
  by_cases h : 48 ≤ c.toNat ∧ c.toNat ≤ 57
  · simp only [h, and_self, if_true, Option.some.injEq, decide_True, true_and]
    constructor
    · rintro ⟨rfl, _⟩; rfl
    · rintro rfl; exact ⟨rfl, by omega⟩
  · simp only [h, if_false, decide_False, Bool.false_eq_true, false_and, iff_false]
    split
    · rintro ⟨h1, h2⟩
      simp only [Option.some.injEq] at h1
      omega
    · rintro ⟨h1, _⟩; exact absurd h1 (by simp)

theorem natValue_ge (ds : List Char) (n : Nat) : n ≤ natValue ds n := by
  induction ds generalizing n with
  | nil => exact le_refl _
  | cons c cs ih =>
    have := ih (10 * n + (c.toNat - 48))
    simp only [natValue, List.foldl_cons] at this ⊢
    omega

/-- The digit loop of `ParseUint` in base 10, when it ends without error: all
bytes are decimal digits and the value is the number they denote. -/
theorem parseUintLoop_ok (maxVal : Nat) (hmax : 10 * maxVal + 9 < 2 ^ 64)
    (cs : List Char) (n u : Nat) (hn : n ≤ maxVal) :
    parseUintLoop 10 (maxUint64 / 10 + 1) maxVal cs n = (u, none) ↔
      (cs.all isDecimalDigit = true ∧ natValue cs n = u ∧ u ≤ maxVal) := by
  induction cs generalizing n with
  | nil =>
    simp only [parseUintLoop, Prod.mk.injEq, and_true, List.all_nil, natValue, List.foldl_nil,
      true_and]
    constructor
    · rintro rfl; exact ⟨rfl, hn⟩
    · rintro ⟨h, _⟩; exact h
  | cons c cs ih =>
    have hcut : maxUint64 / 10 + 1 = 1844674407370955162 := by decide
    have hp : (2 : Nat) ^ 64 = 18446744073709551616 := by norm_num
    rw [hp] at hmax
    simp only [parseUintLoop, hcut, hp]
    have hd := digitOf_lt_ten c
    cases hdc : digitOf c with
    | none =>
      have hnd : isDecimalDigit c = false := by
        by_contra hc
        have := (hd (c.toNat - 48)).2 ⟨by simpa using hc, rfl⟩
        rw [hdc] at this
        exact absurd this.1 (by simp)
      simp [hnd]
    | some d =>
      by_cases hd10 : d ≥ 10
      · have hnd : isDecimalDigit c = false := by
          by_contra hc
          have := (hd (c.toNat - 48)).2 ⟨by simpa using hc, rfl⟩
          rw [hdc] at this
          have h1 := this.1
          simp only [Option.some.injEq] at h1
          omega
        simp [hd10, hnd]
      · have hdd := (hd d).1 ⟨hdc, by omega⟩
        have hcn : ¬ (n ≥ 1844674407370955162) := by omega
        have e1 : n * 10 % 18446744073709551616 = n * 10 := Nat.mod_eq_of_lt (by omega)
        have e2 : (n * 10 + d) % 18446744073709551616 = n * 10 + d :=
          Nat.mod_eq_of_lt (by omega)
        simp only [hd10, if_false, hcn, e1, e2]
        have hnv : natValue (c :: cs) n = natValue cs (n * 10 + d) := by
          simp only [natValue, List.foldl_cons, hdd.2]
          congr 1; omega
        by_cases hov : n * 10 + d > maxVal
        · have : ¬ (natValue (c :: cs) n ≤ maxVal) := by
            rw [hnv]; have := natValue_ge cs (n * 10 + d); omega
          simp only [hov, or_true, if_true, Prod.mk.injEq, false_and, and_false, false_iff]
          simp only [reduceCtorEq, and_false, false_iff]
          rintro ⟨_, h2, h3⟩
          rw [h2] at this; exact this h3
        · have hlt : ¬ (n * 10 + d < n * 10) := by omega
          simp only [hlt, hov, or_self, if_false]
          rw [← hcut, ih (n * 10 + d) (by omega), hnv]
          simp [hdd.1]

/-- A range error of the digit loop comes with the value `maxVal`. -/
theorem parseUintLoop_range (base cutoff maxVal : Nat) (cs : List Char) (n u : Nat)
    (h : parseUintLoop base cutoff maxVal cs n = (u, some .rangeErr)) : u = maxVal := by
  induction cs generalizing n with
  | nil => simp [parseUintLoop] at h
  | cons c cs ih =>
    simp only [parseUintLoop] at h
    split at h
    · simp at h
    · split at h
      · simp at h
      · split at h
        · simp only [Prod.mk.injEq, and_true] at h; exact h.symm
        · split at h
          · simp only [Prod.mk.injEq, and_true] at h; exact h.symm
          · exact ih _ h

/-- In base 10 and for the bit sizes 16 and 32, `strconv.ParseInt` returns a
value without error exactly on the base-10 signed integers within the bit
width, and the value is the integer denoted. -/
theorem parseInt_ok_iff (bits : Nat) (hb : bits = 16 ∨ bits = 32) (s : String) (v : Int) :
    ParseInt s 10 bits = (v, none) ↔ denotes s bits v := by
  unfold ParseInt denotes decimalValue inWidth
  cases hs : s.toList with
  | nil => simp
  | cons c cs =>
    simp only
    generalize hbody : (if c = '+' ∨ c = '-' then cs else c :: cs) = body
    have hmax : 10 * (2 ^ bits - 1) + 9 < 2 ^ 64 := by
      rcases hb with rfl | rfl <;> norm_num
    have hcut : (2 : Nat) ^ (bits - 1) < 2 ^ bits - 1 ∧ 0 < 2 ^ (bits - 1) := by
      rcases hb with rfl | rfl <;> norm_num
    have hcast : ((2 : Int) ^ (bits - 1)) = (((2 : Nat) ^ (bits - 1) : Nat) : Int) := by
      push_cast; rfl
    rw [hcast]
    generalize (2 : Nat) ^ (bits - 1) = cutoff at hcut ⊢
    generalize hmv : 2 ^ bits - 1 = maxVal at hmax hcut
    have hloop := parseUintLoop_ok maxVal hmax body 0
    have hrange := parseUintLoop_range 10 (maxUint64 / 10 + 1) maxVal body 0
    unfold ParseUint
    rw [hmv]
    by_cases hnil : body = []
    · simp [hnil]
    · simp only [hnil, if_false, Nat.reduceLeDiff, and_self, not_true_eq_false, ne_eq,
        not_false_eq_true, true_and]
      rcases hres : parseUintLoop 10 (maxUint64 / 10 + 1) maxVal body 0 with ⟨un, err⟩
      cases err with
      | none =>
        obtain ⟨hall, hval, hle⟩ := (hloop un (Nat.zero_le _)).1 hres
        simp only [not_true_eq_false, false_and, if_false, hall, if_true, Option.some.injEq,
          Prod.mk.injEq, and_true, reduceCtorEq, ne_eq, not_false_eq_true, hval]
        by_cases hneg : c = '-'
        · simp only [hneg, not_true_eq_false, false_and, if_false, true_and, if_true]
          by_cases hgt : un > cutoff
          · simp only [hgt, if_true, Prod.mk.injEq, reduceCtorEq, and_false, false_iff]
            rintro ⟨rfl, h1, _⟩; omega
          · simp only [hgt, if_false, true_and, Prod.mk.injEq, and_true]
            constructor
            · rintro rfl; exact ⟨rfl, by omega, by omega⟩
            · rintro ⟨h, _⟩; exact h
        · simp only [hneg, not_false_eq_true, true_and, false_and, if_false]
          by_cases hge : un ≥ cutoff
          · simp only [hge, if_true, Prod.mk.injEq, reduceCtorEq, and_false, false_iff]
            rintro ⟨rfl, _, h2⟩; omega
          · simp only [hge, if_false, true_and, Prod.mk.injEq, and_true]
            constructor
            · rintro rfl; exact ⟨rfl, by omega, by omega⟩
            · rintro ⟨h, _⟩; exact h
      | some e =>
        have hno : ∀ u, ¬ (body.all isDecimalDigit = true ∧ natValue body 0 = u ∧ u ≤ maxVal) := by
          intro u hu
          have := (hloop u (Nat.zero_le _)).2 hu
          rw [hres] at this
          simp at this
        have hrhs : ¬ ((if body.all isDecimalDigit = true then
              some (if c = '-' then -(natValue body 0 : Int) else (natValue body 0 : Int))
            else none) = some v ∧ -(cutoff : Int) ≤ v ∧ v < (cutoff : Int)) := by
          rintro ⟨h1, h2, h3⟩
          by_cases hall : body.all isDecimalDigit = true
          · simp only [hall, if_true, Option.some.injEq] at h1
            apply hno (natValue body 0)
            refine ⟨hall, rfl, ?_⟩
            by_cases hneg : c = '-'
            · simp only [hneg, if_true] at h1; omega
            · simp only [hneg, if_false] at h1; omega
          · simp [hall] at h1
        simp only [hrhs, iff_false]
        by_cases hr : e = .rangeErr
        · subst hr
          have hu := hrange un hres
          subst hu
          simp only [ne_eq, reduceCtorEq, not_false_eq_true, not_true_eq_false, and_false,
            if_false]
          by_cases hneg : c = '-'
          · have h : un > cutoff := hcut.1
            simp [hneg, h]
          · simp [hneg, le_of_lt hcut.1]
        · simp [hr]

/-! ## Lemmas on the loop -/

theorem handlerLoop_cons (w : World) (i : Nat) (record : S3EventRecord)
    (rest : List S3EventRecord) (st : Run) :
    handlerLoop w i (record :: rest) st =
      match stepOf w i record with
      | (evs, op, some o) =>
        Run.leave ⟨st.trace ++ evs, (if op then [i] else []) ++ st.deferred⟩ o
      | (evs, op, none) =>
        handlerLoop w (i + 1) rest ⟨st.trace ++ evs, (if op then [i] else []) ++ st.deferred⟩ := by
  rw [handlerLoop]
  unfold stepOf
  cases QueryUnescape record.Key with
  | error e => simp
  | ok key =>
    simp only
    cases w.GetObject i record.Bucket key with
    | error e => simp [Run.emit]
    | ok body =>
      simp only
      cases parseFile body with
      | headerError e => simp [Run.emit, Run.defer]
      | rowError e => simp [Run.emit, Run.defer]
      | fatal m => simp [Run.emit, Run.defer]
      | panicked m => simp [Run.emit, Run.defer]
      | batch b =>
        simp only
        cases w.Replace i b with
        | some e => simp [Run.emit, Run.defer]
        | none => simp [Run.emit, Run.defer]

/-- The loop of `handler` is `runFrom`, followed by the deferred calls. -/
theorem handlerLoop_eq (w : World) (i : Nat) (records : List S3EventRecord) (st : Run) :
    handlerLoop w i records st =
      Run.leave ⟨st.trace ++ (runFrom w i records).1,
        (runFrom w i records).2.1 ++ st.deferred⟩ (runFrom w i records).2.2 := by
  induction records generalizing i st with
  | nil => simp [handlerLoop, runFrom]
  | cons record rest ih =>
    rw [handlerLoop_cons, runFrom]
    rcases hstep : stepOf w i record with ⟨evs, op, o⟩
    cases o with
    | some o => simp
    | none =>
      simp only
      rw [ih]
      rcases runFrom w (i + 1) rest with ⟨evs', ds, o'⟩
      simp [List.append_assoc]

/-! ## Lemmas on `mapRowToPriceDistribution` -/

theorem parseIntOrCrash_ok_iff (bits : Nat) (hb : bits = 16 ∨ bits = 32) (s : String) (v : Int) :
    parseIntOrCrash s 10 bits = .ok v ↔ denotes s bits v := by
  rw [← parseInt_ok_iff bits hb]
  unfold parseIntOrCrash
  rcases ParseInt s 10 bits with ⟨r, e⟩
  cases e <;> simp

theorem parseIntOrCrash_not_ok (bits : Nat) (hb : bits = 16 ∨ bits = 32) (s : String)
    (h : ∀ v, ¬ denotes s bits v) :
    parseIntOrCrash s 10 bits = .fatal ("could not parse integer '" ++ s ++ "'") := by
  have h' : ∀ v, ParseInt s 10 bits ≠ (v, none) := fun v hv =>
    h v ((parseInt_ok_iff bits hb s v).1 hv)
  unfold parseIntOrCrash
  rcases hp : ParseInt s 10 bits with ⟨r, e⟩
  cases e with
  | none => exact absurd hp (h' r)
  | some e => rfl

theorem toInt16_of_inWidth (v : Int) (h : inWidth 16 v) : toInt16 v = v := by
  unfold inWidth at h
  unfold toInt16
  norm_num at h ⊢
  omega

theorem toInt32_of_inWidth (v : Int) (h : inWidth 32 v) : toInt32 v = v := by
  unfold inWidth at h
  unfold toInt32
  norm_num at h ⊢
  omega

theorem Exec.bind_eq_ok {α β : Type} (x : Exec α) (f : α → Exec β) (b : β) :
    x.bind f = .ok b ↔ ∃ a, x = .ok a ∧ f a = .ok b := by
  cases x <;> simp [Exec.bind]

theorem Exec.ok_bind {α β : Type} (a : α) (f : α → Exec β) : (Exec.ok a).bind f = f a := rfl

theorem Exec.fatal_bind {α β : Type} (m : String) (f : α → Exec β) :
    (Exec.fatal m : Exec α).bind f = .fatal m := rfl

theorem index_eq_ok (row : List String) (i : Nat) (s : String) :
    index row i = .ok s ↔ row.get? i = some s := by
  unfold index
  cases row.get? i <;> simp

/-- A row shorter than five columns never gives a record. -/
theorem mapRow_short (row : List String) (h : row.length < 5) (pd : PriceDistribution) :
    mapRowToPriceDistribution row ≠ .ok pd := by
  intro hok
  simp only [mapRowToPriceDistribution, bind, Exec.bind_eq_ok, index_eq_ok] at hok
  obtain ⟨_, _, _, _, _, _, _, _, _, _, _, _, _, _, _, _, c4, h4, _⟩ := hok
  have := List.get?_eq_some.1 h4
  obtain ⟨hlt, _⟩ := this
  omega

/-- The function `mapRowToPriceDistribution` returns a record exactly on the
well-formed rows, and the record is the 5-tuple of the column values. -/
theorem mapRow_ok_iff (row : List String) (pd : PriceDistribution) :
    mapRowToPriceDistribution row = .ok pd ↔ (wellFormedRow row ∧ pd = recordOfRow row) := by
  rcases row with _ | ⟨c0, _ | ⟨c1, _ | ⟨c2, _ | ⟨c3, _ | ⟨c4, tl⟩⟩⟩⟩⟩
  case cons.cons.cons.cons.cons =>
    simp only [mapRowToPriceDistribution, bind, Exec.bind_eq_ok, index_eq_ok, pure,
      parseIntOrCrash_ok_iff 16 (Or.inl rfl), parseIntOrCrash_ok_iff 32 (Or.inr rfl),
      List.get?_cons_zero, List.get?_cons_succ, Option.some.injEq, exists_eq_left',
      Exec.ok.injEq]
    constructor
    · rintro ⟨v0, h0, v1, h1, v2, h2, v3, h3, v4, h4, rfl⟩
      refine ⟨⟨by simp, ?_⟩, ?_⟩
      · intro col hcol
        rcases col with _ | _ | _ | _ | _ | col
        · exact ⟨v0, h0⟩
        · exact ⟨v1, h1⟩
        · exact ⟨v2, h2⟩
        · exact ⟨v3, h3⟩
        · exact ⟨v4, h4⟩
        · omega
      · simp only [recordOfRow, columnInt, List.get?_cons_zero, List.get?_cons_succ,
          Option.some_bind, h0.1, h1.1, h2.1, h3.1, h4.1, Option.getD_some,
          toInt16_of_inWidth _ h0.2, toInt16_of_inWidth _ h1.2, toInt32_of_inWidth _ h2.2,
          toInt32_of_inWidth _ h3.2, toInt32_of_inWidth _ h4.2]
    · rintro ⟨⟨_, hwf⟩, rfl⟩
      obtain ⟨v0, h0⟩ := hwf 0 (by omega)
      obtain ⟨v1, h1⟩ := hwf 1 (by omega)
      obtain ⟨v2, h2⟩ := hwf 2 (by omega)
      obtain ⟨v3, h3⟩ := hwf 3 (by omega)
      obtain ⟨v4, h4⟩ := hwf 4 (by omega)
      refine ⟨v0, h0, v1, h1, v2, h2, v3, h3, v4, h4, ?_⟩
      have e0 := h0.1
      have e1 := h1.1
      have e2 := h2.1
      have e3 := h3.1
      have e4 := h4.1
      simp only [List.getD_cons_zero, List.getD_cons_succ] at e0 e1 e2 e3 e4
      simp only [recordOfRow, columnInt, List.get?_cons_zero, List.get?_cons_succ,
        Option.some_bind, e0, e1, e2, e3, e4, Option.getD_some,
        toInt16_of_inWidth _ h0.2, toInt16_of_inWidth _ h1.2, toInt32_of_inWidth _ h2.2,
        toInt32_of_inWidth _ h3.2, toInt32_of_inWidth _ h4.2]
  all_goals
    constructor
    · intro h
      exact absurd h (mapRow_short _ (by simp) pd)
    · rintro ⟨⟨h, _⟩, _⟩
      simp at h

/-! ## Lemmas on the reading of one file -/

/-- One turn of the inner loop on a well-formed record of the expected length. -/
theorem readRows_cons_ok (x : RawRecord) (rest : List RawRecord) (fpr : Int)
    (acc : List PriceDistribution) (hpos : 0 < fpr) (herr : x.err = none)
    (hlen : (x.fields.length : Int) = fpr) (hwf : wellFormedRow x.fields) :
    readRows (x :: rest) fpr acc = readRows rest fpr (acc ++ [recordOfRow x.fields]) := by
  have hmap := (mapRow_ok_iff x.fields (recordOfRow x.fields)).2 ⟨hwf, rfl⟩
  rw [readRows]
  simp [Reader.Read, readRecord, hpos, herr, hlen, hmap]

/-- The inner loop on well-formed rows of the expected length appends one
record per row, in order. -/
theorem readRows_wellFormed (rows : List (List String)) (fpr : Int)
    (acc : List PriceDistribution) (hpos : 0 < fpr)
    (h : ∀ row ∈ rows, (row.length : Int) = fpr ∧ wellFormedRow row) :
    readRows (rows.map rec) fpr acc = .done (acc ++ rows.map recordOfRow) := by
  induction rows generalizing acc with
  | nil => simp [readRows]
  | cons row rows ih =>
    have hrow := h row (List.mem_cons_self _ _)
    rw [List.map_cons, readRows_cons_ok (rec row) _ fpr acc hpos rfl hrow.1 hrow.2,
      ih _ (fun r hr => h r (List.mem_cons_of_mem _ hr))]
    simp [rec]

/-- When the inner loop ends at end of input, every record read was free of
lexical errors and well-formed, and the records appended are theirs. -/
theorem readRows_done (input : List RawRecord) (fpr : Int)
    (acc b : List PriceDistribution) (h : readRows input fpr acc = .done b) :
    (∀ x ∈ input, x.err = none ∧ wellFormedRow x.fields) ∧
      b = acc ++ input.map (fun x => recordOfRow x.fields) := by
  induction input generalizing fpr acc with
  | nil =>
    simp only [readRows, Rows.done.injEq] at h
    simp [h]
  | cons x rest ih =>
    rw [readRows] at h
    simp only [Reader.Read] at h
    rcases hrr : readRecord fpr x with ⟨res, fpr'⟩
    rw [hrr] at h
    have hres : res = .ok x.fields → x.err = none := by
      intro hr
      unfold readRecord at hrr
      cases hx : x.err with
      | none => rfl
      | some e =>
        rw [hx] at hrr
        subst hr
        simp only [Option.map_some', reduceCtorEq, and_false, if_false] at hrr
        split at hrr <;> simp at hrr
    have hfields : ∀ row, res = .ok row → row = x.fields := by
      intro row hr
      subst hr
      unfold readRecord at hrr
      simp only at hrr
      split at hrr
      · split at hrr
        · simp at hrr
        · split at hrr <;> simp at hrr
          exact hrr.1.symm
      · split at hrr <;> simp at hrr
        exact hrr.1.symm
    have hneof : res ≠ .error .eof := by
      intro hr
      subst hr
      unfold readRecord at hrr
      simp only at hrr
      split at hrr
      · split at hrr
        · simp at hrr
        · split at hrr
          · simp at hrr
          · rename_i e he
            cases hx : x.err <;> simp [hx] at he
            simp only [Prod.mk.injEq, Except.error.injEq] at hrr
            rw [← he] at hrr
            simp at hrr
      · split at hrr
        · simp at hrr
        · rename_i e he
          cases hx : x.err <;> simp [hx] at he
          simp only [Prod.mk.injEq, Except.error.injEq] at hrr
          rw [← he] at hrr
          simp at hrr
    cases res with
    | error e =>
      cases e with
      | eof => exact absurd rfl hneof
      | lexical m => simp at h
      | fieldCount => simp at h
    | ok row =>
      have hrow := hfields row rfl
      subst hrow
      simp only at h
      cases hm : mapRowToPriceDistribution x.fields with
      | ok pd =>
        rw [hm] at h
        simp only at h
        obtain ⟨hall, hb⟩ := ih _ _ h
        obtain ⟨hwf, hpd⟩ := (mapRow_ok_iff _ _).1 hm
        refine ⟨?_, ?_⟩
        · intro y hy
          rcases List.mem_cons.1 hy with rfl | hy
          · exact ⟨hres rfl, hwf⟩
          · exact hall y hy
        · simp [hb, hpd]
      | fatal m => rw [hm] at h; simp at h
      | panic m => rw [hm] at h; simp at h

/-- What `parseFile` does on a file with a well-formed header record: only the
number of fields of the header is used. -/
theorem parseFile_header (hdr : List String) (data : List RawRecord) :
    parseFile (rec hdr :: data) =
      match readRows data (hdr.length : Int) [] with
      | .done pds => .batch pds
      | .failed e => .rowError e
      | .fatal m => .fatal m
      | .panicked m => .panicked m := by
  simp [parseFile, NewReader, Reader.Read, readRecord, rec]

/-- When `parseFile` gives a batch, the file has a header record, every record
after it is free of lexical errors and well-formed, and the batch holds their
records in order. -/
theorem parseFile_batch (body : List RawRecord) (b : List PriceDistribution)
    (h : parseFile body = .batch b) :
    ∃ hdr data, body = hdr :: data ∧
      (∀ x ∈ data, x.err = none ∧ wellFormedRow x.fields) ∧
      b = data.map (fun x => recordOfRow x.fields) := by
  cases body with
  | nil => simp [parseFile, NewReader, Reader.Read] at h
  | cons hdr data =>
    refine ⟨hdr, data, rfl, ?_⟩
    simp only [parseFile, NewReader, Reader.Read] at h
    rcases hrr : readRecord 0 hdr with ⟨res, fpr'⟩
    rw [hrr] at h
    cases res with
    | error e => simp at h
    | ok row =>
      simp only at h
      cases hr : readRows data fpr' [] with
      | done pds =>
        rw [hr] at h
        simp only [Parsed.batch.injEq] at h
        subst h
        have := readRows_done data fpr' [] pds hr
        simpa using this
      | failed e => rw [hr] at h; simp at h
      | fatal m => rw [hr] at h; simp at h
      | panicked m => rw [hr] at h; simp at h

/-! ## Lemmas on `stepOf` and `runFrom` -/

theorem stepOf_index (w : World) (i : Nat) (record : S3EventRecord) (e : Event)
    (h : e ∈ (stepOf w i record).1) : e.index = i ∧ ∀ j, e ≠ .closed j := by
  unfold stepOf at h
  generalize QueryUnescape record.Key = q at h
  cases q with
  | error err => simp at h
  | ok key =>
    simp only at h
    generalize w.GetObject i record.Bucket key = g at h
    cases g with
    | error err =>
      simp only [List.mem_singleton] at h
      subst h; simp [Event.index]
    | ok body =>
      simp only at h
      generalize parseFile body = pf at h
      cases pf with
      | batch b =>
        simp only at h
        generalize w.Replace i b = rp at h
        cases rp <;>
        · simp only [List.cons_append, List.nil_append, List.mem_cons, List.mem_singleton,
            List.not_mem_nil, or_false] at h
          rcases h with rfl | rfl | rfl | rfl <;> simp [Event.index]
      | _ =>
        simp only [List.mem_cons, List.mem_singleton, List.not_mem_nil, or_false] at h
        rcases h with rfl | rfl | rfl <;> simp [Event.index]

/-- An iteration that leaves the function does not return `nil`. -/
theorem stepOf_outcome_ne (w : World) (i : Nat) (record : S3EventRecord) :
    (stepOf w i record).2.2 ≠ some (.returned none) := by
  unfold stepOf
  generalize QueryUnescape record.Key = q
  cases q with
  | error err => simp
  | ok key =>
    simp only
    generalize w.GetObject i record.Bucket key = g
    cases g with
    | error err => simp
    | ok body =>
      simp only
      generalize parseFile body = pf
      cases pf with
      | batch b => simp only; generalize w.Replace i b = rp; cases rp <;> simp
      | _ => simp

/-- The streams an iteration opens are the ones whose `Close` it defers. -/
theorem stepOf_opened (w : World) (i : Nat) (record : S3EventRecord) :
    openedStreams (stepOf w i record).1 = if (stepOf w i record).2.1 then [i] else [] := by
  generalize ht : stepOf w i record = t
  unfold stepOf at ht
  generalize QueryUnescape record.Key = q at ht
  cases q with
  | error err => subst ht; simp [openedStreams]
  | ok key =>
    simp only at ht
    generalize w.GetObject i record.Bucket key = g at ht
    cases g with
    | error err => subst ht; simp [openedStreams]
    | ok body =>
      simp only at ht
      generalize parseFile body = pf at ht
      cases pf with
      | batch b =>
        simp only at ht
        generalize w.Replace i b = rp at ht
        cases rp <;> (subst ht; simp [openedStreams])
      | _ => subst ht; simp [openedStreams]

theorem runFrom_cons (w : World) (i : Nat) (record : S3EventRecord) (rest : List S3EventRecord) :
    runFrom w i (record :: rest) =
      match (stepOf w i record).2.2 with
      | some o => ((stepOf w i record).1, (if (stepOf w i record).2.1 then [i] else []), o)
      | none => ((stepOf w i record).1 ++ (runFrom w (i + 1) rest).1,
          (runFrom w (i + 1) rest).2.1 ++ (if (stepOf w i record).2.1 then [i] else []),
          (runFrom w (i + 1) rest).2.2) := by
  rw [runFrom]
  rcases stepOf w i record with ⟨evs, op, o⟩
  cases o <;> rfl

/-- Every event of the loop from position `i` on belongs to a notification at
a position from `i` up to the last, and none is a `Close`. -/
theorem runFrom_index (w : World) (i : Nat) (records : List S3EventRecord) (e : Event)
    (h : e ∈ (runFrom w i records).1) :
    (i ≤ e.index ∧ e.index < i + records.length) ∧ ∀ j, e ≠ .closed j := by
  induction records generalizing i with
  | nil => simp [runFrom] at h
  | cons record rest ih =>
    rw [runFrom_cons] at h
    cases ho : (stepOf w i record).2.2 with
    | some o =>
      rw [ho] at h
      have := stepOf_index w i record e h
      exact ⟨⟨by omega, by simp only [List.length_cons]; omega⟩, this.2⟩
    | none =>
      rw [ho] at h
      simp only [List.mem_append] at h
      rcases h with h | h
      · have := stepOf_index w i record e h
        exact ⟨⟨by omega, by simp only [List.length_cons]; omega⟩, this.2⟩
      · have := ih (i + 1) h
        exact ⟨⟨by omega, by simp only [List.length_cons]; omega⟩, this.2⟩

/-- The deferred `Close` calls of the loop are those of the streams it opened,
last opened first. -/
theorem runFrom_opened (w : World) (i : Nat) (records : List S3EventRecord) :
    openedStreams (runFrom w i records).1 = (runFrom w i records).2.1.reverse := by
  induction records generalizing i with
  | nil => simp [runFrom, openedStreams]
  | cons record rest ih =>
    rw [runFrom_cons]
    have hs := stepOf_opened w i record
    cases ho : (stepOf w i record).2.2 with
    | some o =>
      simp only [hs]
      split <;> simp
    | none =>
      have hr := ih (i + 1)
      simp only [openedStreams, List.filterMap_append] at hs hr ⊢
      rw [hs, hr]
      split <;> simp

/-- When the loop on a prefix returns `nil`, the loop on the whole list goes on
with the rest. -/
theorem runFrom_append_ok (w : World) (i : Nat) (pre rest : List S3EventRecord)
    (h : (runFrom w i pre).2.2 = .returned none) :
    runFrom w i (pre ++ rest) =
      ((runFrom w i pre).1 ++ (runFrom w (i + pre.length) rest).1,
        (runFrom w (i + pre.length) rest).2.1 ++ (runFrom w i pre).2.1,
        (runFrom w (i + pre.length) rest).2.2) := by
  induction pre generalizing i with
  | nil => simp [runFrom]
  | cons record pre ih =>
    rw [runFrom_cons] at h
    rw [List.cons_append, runFrom_cons, runFrom_cons]
    cases ho : (stepOf w i record).2.2 with
    | some o =>
      rw [ho] at h
      simp only at h
      subst h
      exact absurd ho (stepOf_outcome_ne w i record)
    | none =>
      rw [ho] at h
      simp only at h
      simp only [ih (i + 1) h, List.length_cons, List.append_assoc]
      have : i + 1 + pre.length = i + (pre.length + 1) := by omega
      rw [this]

/-- When the loop on a prefix does not return `nil`, the rest is not looked at. -/
theorem runFrom_append_stop (w : World) (i : Nat) (pre rest : List S3EventRecord)
    (h : (runFrom w i pre).2.2 ≠ .returned none) :
    runFrom w i (pre ++ rest) = runFrom w i pre := by
  induction pre generalizing i with
  | nil => simp [runFrom] at h
  | cons record pre ih =>
    rw [runFrom_cons] at h
    rw [List.cons_append, runFrom_cons, runFrom_cons]
    cases ho : (stepOf w i record).2.2 with
    | some o => rfl
    | none =>
      rw [ho] at h
      simp only at h
      simp only [ih (i + 1) h]

theorem leave_outcome (st : Run) (o : Outcome) : (st.leave o).outcome = o := by
  cases o <;> rfl

theorem leave_writesOf (k : Nat) (st : Run) (o : Outcome) :
    writesOf k (st.leave o).trace = writesOf k st.trace := by
  cases o <;> simp [Run.leave, writesOf, List.filterMap_append, List.filterMap_map]

theorem leave_opened (st : Run) (o : Outcome) :
    openedStreams (st.leave o).trace = openedStreams st.trace := by
  cases o <;> simp [Run.leave, openedStreams, List.filterMap_append, List.filterMap_map]

theorem handler_eq (w : World) (event : List S3EventRecord) (h : w.NewDatabase = none) :
    handler w event =
      Run.leave ⟨(runFrom w 0 event).1, (runFrom w 0 event).2.1⟩ (runFrom w 0 event).2.2 := by
  simp [handler, h, handlerLoop_eq]

/-- An invocation that returns `nil`: the database was opened and the loop
returned `nil`. -/
theorem handler_nil (w : World) (event : List S3EventRecord)
    (h : (handler w event).outcome = .returned none) :
    w.NewDatabase = none ∧ (runFrom w 0 event).2.2 = .returned none := by
  cases hdb : w.NewDatabase with
  | some e => simp [handler, hdb] at h
  | none =>
    rw [handler_eq w event hdb, leave_outcome] at h
    exact ⟨rfl, h⟩

theorem writesOf_eq_nil (k : Nat) (evs : List Event) (h : ∀ e ∈ evs, e.index ≠ k) :
    writesOf k evs = [] := by
  induction evs with
  | nil => rfl
  | cons e evs ih =>
    have he := h e (List.mem_cons_self _ _)
    have ih' := ih (fun x hx => h x (List.mem_cons_of_mem _ hx))
    cases e <;> simp_all [writesOf, Event.index]

theorem writesOf_append (k : Nat) (a b : List Event) :
    writesOf k (a ++ b) = writesOf k a ++ writesOf k b := by
  simp [writesOf, List.filterMap_append]

/-! ## Lemmas on one notification -/

theorem stepOf_decode_error (w : World) (i : Nat) (n : S3EventRecord) (e : String)
    (h : QueryUnescape n.Key = .error e) :
    stepOf w i n = ([], false, some (.returned (some (.decoding e)))) := by
  simp [stepOf, h]

theorem stepOf_fetched (w : World) (i : Nat) (n : S3EventRecord) (key : String)
    (body : List RawRecord) (hkey : QueryUnescape n.Key = .ok key)
    (hbody : w.GetObject i n.Bucket key = .ok body) :
    stepOf w i n =
      match parseFile body with
      | .headerError e =>
        ([.fetch i n.Bucket key, .opened i, .parse i], true, some (.returned (some (.header e))))
      | .rowError e =>
        ([.fetch i n.Bucket key, .opened i, .parse i], true, some (.returned (some (.reading e))))
      | .fatal m => ([.fetch i n.Bucket key, .opened i, .parse i], true, some (.fatal m))
      | .panicked m => ([.fetch i n.Bucket key, .opened i, .parse i], true, some (.panicked m))
      | .batch b =>
        match w.Replace i b with
        | some e =>
          ([.fetch i n.Bucket key, .opened i, .parse i, .write i b], true,
            some (.returned (some (.inserting e))))
        | none => ([.fetch i n.Bucket key, .opened i, .parse i, .write i b], true, none) := by
  simp only [stepOf, hkey, hbody]
  cases parseFile body <;> simp

/-- The events of a finished invocation belong to notifications of the batch. -/
theorem runFrom_deferred_index (w : World) (i : Nat) (records : List S3EventRecord) (d : Nat)
    (h : d ∈ (runFrom w i records).2.1) : i ≤ d ∧ d < i + records.length := by
  have hrev : d ∈ openedStreams (runFrom w i records).1 := by
    rw [runFrom_opened]; simpa using h
  simp only [openedStreams, List.mem_filterMap] at hrev
  obtain ⟨e, he, hd⟩ := hrev
  have := (runFrom_index w i records e he).1
  cases e <;> simp at hd
  subst hd
  simpa [Event.index] using this

theorem handler_trace_index (w : World) (event : List S3EventRecord) (e : Event)
    (h : e ∈ (handler w event).trace) : e.index < event.length := by
  cases hdb : w.NewDatabase with
  | some err => simp [handler, hdb] at h
  | none =>
    rw [handler_eq w event hdb] at h
    have hin : e ∈ (runFrom w 0 event).1 ∨ e ∈ (runFrom w 0 event).2.1.map Event.closed := by
      generalize (runFrom w 0 event).2.2 = o at h
      cases o <;> simp [Run.leave] at h ⊢
      · exact h
      · exact Or.inl h
      · exact h
    rcases hin with hin | hin
    · have := (runFrom_index w 0 event e hin).1
      omega
    · simp only [List.mem_map] at hin
      obtain ⟨d, hd, rfl⟩ := hin
      have := runFrom_deferred_index w 0 event d hd
      simp only [Event.index]
      omega

/-- When the invocation on a prefix does not return `nil`, the notifications
after the prefix change nothing. -/
theorem handler_append_stop (w : World) (pre rest : List S3EventRecord)
    (h : (handler w pre).outcome ≠ .returned none) :
    handler w (pre ++ rest) = handler w pre := by
  cases hdb : w.NewDatabase with
  | some err => simp [handler, hdb]
  | none =>
    rw [handler_eq w pre hdb, leave_outcome] at h
    rw [handler_eq w _ hdb, handler_eq w pre hdb, runFrom_append_stop w 0 pre rest h]

/-- When the invocation on a prefix returns `nil`, the invocation on the whole
batch is the prefix followed by the loop on the rest. -/
theorem handler_append_ok (w : World) (pre rest : List S3EventRecord)
    (h : (handler w pre).outcome = .returned none) :
    handler w (pre ++ rest) =
      Run.leave ⟨(runFrom w 0 pre).1 ++ (runFrom w pre.length rest).1,
        (runFrom w pre.length rest).2.1 ++ (runFrom w 0 pre).2.1⟩
        (runFrom w pre.length rest).2.2 := by
  obtain ⟨hdb, hnil⟩ := handler_nil w pre h
  rw [handler_eq w _ hdb, runFrom_append_ok w 0 pre rest hnil]
  simp

/-- The outcome at a notification the loop reaches, when its iteration leaves
the function. -/
theorem handler_outcome_at (w : World) (pre post : List S3EventRecord) (n : S3EventRecord)
    (o : Outcome) (h : (handler w pre).outcome = .returned none)
    (ho : (stepOf w pre.length n).2.2 = some o) :
    (handler w (pre ++ n :: post)).outcome = o := by
  rw [handler_append_ok w pre _ h, leave_outcome, runFrom_cons, ho]

/-- The calls of `ReplacePriceDistributions` for a notification: those of its
iteration when the loop reaches it, none otherwise. -/
theorem handler_writesOf_at (w : World) (pre post : List S3EventRecord) (n : S3EventRecord) :
    writesOf pre.length (handler w (pre ++ n :: post)).trace =
      if (handler w pre).outcome = .returned none then
        writesOf pre.length (stepOf w pre.length n).1
      else [] := by
  by_cases h : (handler w pre).outcome = .returned none
  · simp only [h, if_true]
    rw [handler_append_ok w pre _ h, leave_writesOf]
    simp only [writesOf_append]
    have hpre : writesOf pre.length (runFrom w 0 pre).1 = [] := by
      apply writesOf_eq_nil
      intro e he
      have := (runFrom_index w 0 pre e he).1
      omega
    rw [hpre, runFrom_cons]
    cases ho : (stepOf w pre.length n).2.2 with
    | some o => simp
    | none =>
      simp only [writesOf_append, List.nil_append]
      have hpost : writesOf pre.length (runFrom w (pre.length + 1) post).1 = [] := by
        apply writesOf_eq_nil
        intro e he
        have := (runFrom_index w (pre.length + 1) post e he).1
        omega
      rw [hpost]; simp
  · simp only [h, if_false]
    rw [handler_append_stop w pre _ h]
    apply writesOf_eq_nil
    intro e he
    have := handler_trace_index w pre e he
    omega

/-! ## Lemmas on malformed rows -/

theorem parseIntOrCrash_ok_or_fatal (s : String) (base bits : Nat) :
    (∃ v, parseIntOrCrash s base bits = .ok v) ∨ ∃ m, parseIntOrCrash s base bits = .fatal m := by
  unfold parseIntOrCrash
  rcases ParseInt s base bits with ⟨r, e⟩
  cases e with
  | none => exact Or.inl ⟨r, rfl⟩
  | some e => exact Or.inr ⟨_, rfl⟩

/-- On a row of five columns or more no index is out of range: the row gives a
record or ends the process. -/
theorem mapRow_long (row : List String) (h : 5 ≤ row.length) :
    (∃ pd, mapRowToPriceDistribution row = .ok pd) ∨
      ∃ m, mapRowToPriceDistribution row = .fatal m := by
  rcases row with _ | ⟨c0, _ | ⟨c1, _ | ⟨c2, _ | ⟨c3, _ | ⟨c4, tl⟩⟩⟩⟩⟩
  case cons.cons.cons.cons.cons =>
    simp only [mapRowToPriceDistribution, bind, index, List.get?_cons_zero, List.get?_cons_succ,
      pure, Exec.ok_bind]
    rcases parseIntOrCrash_ok_or_fatal c0 10 16 with ⟨v0, h0⟩ | ⟨m, h0⟩ <;> rw [h0] <;>
      simp only [Exec.ok_bind, Exec.fatal_bind]
    · rcases parseIntOrCrash_ok_or_fatal c1 10 16 with ⟨v1, h1⟩ | ⟨m, h1⟩ <;> rw [h1] <;>
        simp only [Exec.ok_bind, Exec.fatal_bind]
      · rcases parseIntOrCrash_ok_or_fatal c2 10 32 with ⟨v2, h2⟩ | ⟨m, h2⟩ <;> rw [h2] <;>
          simp only [Exec.ok_bind, Exec.fatal_bind]
        · rcases parseIntOrCrash_ok_or_fatal c3 10 32 with ⟨v3, h3⟩ | ⟨m, h3⟩ <;> rw [h3] <;>
            simp only [Exec.ok_bind, Exec.fatal_bind]
          · rcases parseIntOrCrash_ok_or_fatal c4 10 32 with ⟨v4, h4⟩ | ⟨m, h4⟩ <;> rw [h4] <;>
              simp only [Exec.ok_bind, Exec.fatal_bind]
            · exact Or.inl ⟨_, rfl⟩
            · exact Or.inr ⟨_, rfl⟩
          · exact Or.inr ⟨_, rfl⟩
        · exact Or.inr ⟨_, rfl⟩
      · exact Or.inr ⟨_, rfl⟩
    · exact Or.inr ⟨_, rfl⟩
  all_goals simp at h

theorem not_wellFormed_of_malformed (row : List String) (h : malformedRow row) :
    ¬ wellFormedRow row := by
  rintro ⟨hlen, hcols⟩
  rcases h with h | ⟨col, hcol, hno⟩
  · omega
  · obtain ⟨v, hv⟩ := hcols col hcol
    exact hno v hv

/-- The inner loop on rows of the expected length, five columns or more, one of
which is not well-formed: the process ends in `log.Fatalf`. -/
theorem readRows_fatal (rows : List (List String)) (fpr : Int)
    (acc : List PriceDistribution) (hpos : 0 < fpr)
    (hlen : ∀ row ∈ rows, (row.length : Int) = fpr ∧ 5 ≤ row.length)
    (hbad : ∃ row ∈ rows, ¬ wellFormedRow row) :
    ∃ m, readRows (rows.map rec) fpr acc = .fatal m := by
  induction rows generalizing acc with
  | nil => simp at hbad
  | cons row rows ih =>
    have hrow := hlen row (List.mem_cons_self _ _)
    by_cases hwf : wellFormedRow row
    · rw [List.map_cons, readRows_cons_ok (rec row) _ fpr acc hpos rfl hrow.1 hwf]
      apply ih _ (fun r hr => hlen r (List.mem_cons_of_mem _ hr))
      obtain ⟨r, hr, hrbad⟩ := hbad
      rcases List.mem_cons.1 hr with rfl | hr
      · exact absurd hwf hrbad
      · exact ⟨r, hr, hrbad⟩
    · rcases mapRow_long row hrow.2 with ⟨pd, hpd⟩ | ⟨m, hm⟩
      · exact absurd ((mapRow_ok_iff row pd).1 hpd).1 hwf
      · refine ⟨m, ?_⟩
        rw [List.map_cons, readRows]
        simp [Reader.Read, readRecord, hpos, hrow.1, rec, hm]

theorem columnInt_of_value (row : List String) (col : Nat) (v : Int) (hcol : col < row.length)
    (h : decimalValue (row.getD col "") = some v) : columnInt row col = v := by
  unfold columnInt
  have : row.get? col = some (row.getD col "") := by
    rw [List.getD_eq_getElem?_getD, List.get?_eq_getElem?, List.getElem?_eq_getElem hcol]
    simp
  rw [this, Option.some_bind, h]
  rfl

/-! ## The claims -/

/-- Claim C1: a CSV input made of a header and `N ≥ 0` data rows, every row with
the header's number of fields, that number at least 5, and the first five
columns of every row base-10 signed integers within the bit width of their
field, is parsed into exactly the `N` records of its rows, in row order, each
field being the integer value of its column; that batch, and no other, is what
`handler` passes to `ReplacePriceDistributions` for the file. -/
theorem c1_valid_csv_gives_its_records (hdr : List String) (rows : List (List String))
    (h5 : 5 ≤ hdr.length) (hlen : ∀ row ∈ rows, row.length = hdr.length)
    (hcols : ∀ row ∈ rows, ∀ col, col < 5 →
      ∃ v, denotes (row.getD col "") (widthOf col) v) :
    parseFile (rec hdr :: rows.map rec) = .batch (rows.map recordOfRow) ∧
    (rows.map recordOfRow).length = rows.length ∧
    (∀ row ∈ rows, ∀ col, col < 5 →
      decimalValue (row.getD col "") = some ((recordOfRow row).field col)) ∧
    ∀ (w : World) (pre post : List S3EventRecord) (n : S3EventRecord) (key : String),
      (handler w pre).outcome = .returned none →
      QueryUnescape n.Key = .ok key →
      w.GetObject pre.length n.Bucket key = .ok (rec hdr :: rows.map rec) →
      writesOf pre.length (handler w (pre ++ n :: post)).trace = [rows.map recordOfRow] := by
  have hwf : ∀ row ∈ rows, ((row.length : Int) = (hdr.length : Int)) ∧ wellFormedRow row := by
    intro row hrow
    refine ⟨by rw [hlen row hrow], ?_, hcols row hrow⟩
    rw [hlen row hrow]; exact h5
  have hparse : parseFile (rec hdr :: rows.map rec) = .batch (rows.map recordOfRow) := by
    rw [parseFile_header, readRows_wellFormed rows _ [] (by omega) hwf]
    simp
  refine ⟨hparse, by simp, ?_, ?_⟩
  · intro row hrow col hcol
    obtain ⟨v, hv, _⟩ := hcols row hrow col hcol
    have hc : col < row.length := by rw [hlen row hrow]; omega
    have hci := columnInt_of_value row col v hc hv
    rw [hv]
    rcases col with _ | _ | _ | _ | _ | col
    · simp [PriceDistribution.field, recordOfRow, hci]
    · simp [PriceDistribution.field, recordOfRow, hci]
    · simp [PriceDistribution.field, recordOfRow, hci]
    · simp [PriceDistribution.field, recordOfRow, hci]
    · simp [PriceDistribution.field, recordOfRow, hci]
    · omega
  · intro w pre post n key hreach hkey hbody
    rw [handler_writesOf_at, if_pos hreach, stepOf_fetched w _ n key _ hkey hbody, hparse]
    simp only
    cases w.Replace pre.length (rows.map recordOfRow) <;> simp [writesOf]

/-- Claim C1 at the file `header`, `1,2,100,500,3`, `1,2,101,250,10`: the batch
written is `{1,2,100,500,3}`, `{1,2,101,250,10}`. -/
theorem c1_valid_csv_gives_its_records_witness :
    (5 ≤ header5.length ∧
      ∀ row ∈ [["1", "2", "100", "500", "3"], ["1", "2", "101", "250", "10"]],
        row.length = header5.length) ∧
    parseFile (rec header5 ::
        [["1", "2", "100", "500", "3"], ["1", "2", "101", "250", "10"]].map rec) =
      .batch [⟨1, 2, 100, 500, 3⟩, ⟨1, 2, 101, 250, 10⟩] ∧
    writesOf 0 (handler
        (worldOf [[rec header5, rec ["1", "2", "100", "500", "3"],
          rec ["1", "2", "101", "250", "10"]]] [])
        [⟨"bucket", "distributions.csv"⟩]).trace =
      [[⟨1, 2, 100, 500, 3⟩, ⟨1, 2, 101, 250, 10⟩]] := by
  have hlen : ∀ row ∈ [["1", "2", "100", "500", "3"], ["1", "2", "101", "250", "10"]],
      row.length = header5.length := by decide
  have h1 := ((mapRow_ok_iff ["1", "2", "100", "500", "3"] ⟨1, 2, 100, 500, 3⟩).1
    (by decide)).1.2
  have h2 := ((mapRow_ok_iff ["1", "2", "101", "250", "10"] ⟨1, 2, 101, 250, 10⟩).1
    (by decide)).1.2
  have hcols : ∀ row ∈ [["1", "2", "100", "500", "3"], ["1", "2", "101", "250", "10"]],
      ∀ col, col < 5 → ∃ v, denotes (row.getD col "") (widthOf col) v := by
    intro row hrow
    simp only [List.mem_cons, List.mem_singleton, List.not_mem_nil, or_false] at hrow
    rcases hrow with rfl | rfl
    · exact h1
    · exact h2
  have h := c1_valid_csv_gives_its_records header5
    [["1", "2", "100", "500", "3"], ["1", "2", "101", "250", "10"]] (by decide) hlen hcols
  refine ⟨⟨by decide, hlen⟩, ?_, ?_⟩
  · rw [h.1]; decide
  · have hw := h.2.2.2
      (worldOf [[rec header5, rec ["1", "2", "100", "500", "3"],
        rec ["1", "2", "101", "250", "10"]]] [])
      [] [] ⟨"bucket", "distributions.csv"⟩ "distributions.csv" (by decide) (by decide) (by decide)
    rw [List.nil_append] at hw
    rw [show ([] : List S3EventRecord).length = 0 from rfl] at hw
    rw [hw]; decide

/-- Claim C2, as the code has it: in a file with a readable header whose data
rows all have the header's number of columns, at least five, a data row with
a non-numeric column among its first five makes `parseIntOrCrash` end the
process in `log.Fatalf`: `handler`, once it has reached the file, returns
nothing to its caller, and no write is made for the file. -/
theorem c2_non_numeric_column_ends_the_process (hdr : List String)
    (rows : List (List String)) (h5 : 5 ≤ hdr.length)
    (hlen : ∀ row ∈ rows, row.length = hdr.length)
    (hbad : ∃ row ∈ rows, ∃ col, col < 5 ∧ decimalValue (row.getD col "") = none) :
    (∃ m, parseFile (rec hdr :: rows.map rec) = .fatal m) ∧
    ∀ (w : World) (pre post : List S3EventRecord) (n : S3EventRecord) (key : String),
      (handler w pre).outcome = .returned none →
      QueryUnescape n.Key = .ok key →
      w.GetObject pre.length n.Bucket key = .ok (rec hdr :: rows.map rec) →
      (∃ m, (handler w (pre ++ n :: post)).outcome = .fatal m) ∧
        writesOf pre.length (handler w (pre ++ n :: post)).trace = [] := by
  have hl : ∀ row ∈ rows, (row.length : Int) = (hdr.length : Int) ∧ 5 ≤ row.length := by
    intro row hrow
    rw [hlen row hrow]; exact ⟨rfl, h5⟩
  have hb : ∃ row ∈ rows, ¬ wellFormedRow row := by
    obtain ⟨row, hrow, col, hcol, hnone⟩ := hbad
    refine ⟨row, hrow, ?_⟩
    rintro ⟨_, hc⟩
    obtain ⟨v, hv, _⟩ := hc col hcol
    rw [hnone] at hv
    exact absurd hv (by simp)
  obtain ⟨m, hm⟩ := readRows_fatal rows (hdr.length : Int) [] (by omega) hl hb
  have hparse : parseFile (rec hdr :: rows.map rec) = .fatal m := by
    rw [parseFile_header, hm]
  refine ⟨⟨m, hparse⟩, ?_⟩
  intro w pre post n key hreach hkey hbody
  have hstep := stepOf_fetched w pre.length n key _ hkey hbody
  rw [hparse] at hstep
  simp only at hstep
  refine ⟨⟨m, ?_⟩, ?_⟩
  · apply handler_outcome_at w pre post n _ hreach
    rw [hstep]
  · rw [handler_writesOf_at, if_pos hreach, hstep]
    rfl

/-- Claim C2 at the file `header`, `1,2,abc,500,3`. -/
theorem c2_non_numeric_column_ends_the_process_witness :
    (5 ≤ header5.length ∧ decimalValue "abc" = none) ∧
    ∃ m, (handler (worldOf [[rec header5, rec ["1", "2", "abc", "500", "3"]]] [])
      ([] ++ ⟨"bucket", "distributions.csv"⟩ :: [])).outcome = .fatal m :=
  ⟨⟨by decide, by decide⟩,
    ((c2_non_numeric_column_ends_the_process header5 [["1", "2", "abc", "500", "3"]]
      (by decide) (by decide) ⟨["1", "2", "abc", "500", "3"], by simp, 2, by decide, by decide⟩).2
      (worldOf [[rec header5, rec ["1", "2", "abc", "500", "3"]]] [])
      [] [] ⟨"bucket", "distributions.csv"⟩ "distributions.csv"
      (by decide) (by decide) (by decide)).1⟩

/-- Claim C2 fails as stated: on the file `header`, `1,2,abc,500,3` the handler
does not return an error value; the process exits in `log.Fatalf`. -/
theorem c2_bad_row_is_not_a_returned_error :
    (handler (worldOf [[rec header5, rec ["1", "2", "abc", "500", "3"]]] [])
        [⟨"bucket", "distributions.csv"⟩]).outcome = .fatal "could not parse integer 'abc'" ∧
    ∀ err, (handler (worldOf [[rec header5, rec ["1", "2", "abc", "500", "3"]]] [])
        [⟨"bucket", "distributions.csv"⟩]).outcome ≠ .returned err := by
  have h : (handler (worldOf [[rec header5, rec ["1", "2", "abc", "500", "3"]]] [])
      [⟨"bucket", "distributions.csv"⟩]).outcome = .fatal "could not parse integer 'abc'" := by
    decide
  refine ⟨h, ?_⟩
  intro err
  rw [h]
  simp

/-- Claim C3 at the file `a,b,c`, `1,2,3`: the row has the header's three
columns, the reader returns it, and `mapRowToPriceDistribution` evaluates
`row[3]` past the end of the row: a panic, not a returned error. -/
theorem c3_short_row_is_indexed_past_its_end :
    mapRowToPriceDistribution ["1", "2", "3"] = .panic "index out of range [3] with length 3" ∧
    parseFile [rec ["a", "b", "c"], rec ["1", "2", "3"]] =
      .panicked "index out of range [3] with length 3" ∧
    (handler (worldOf [[rec ["a", "b", "c"], rec ["1", "2", "3"]]] [])
        [⟨"bucket", "distributions.csv"⟩]).outcome =
      .panicked "index out of range [3] with length 3" := by
  decide

/-- Claim C4: every record `mapRowToPriceDistribution` returns has each field
equal to the integer its column denotes, which lies within the bit width of
the field (16, 16, 32, 32, 32), so the conversions `int16`, `int32` change
nothing; and a row with a column among the first five whose integer lies
outside the bit width gives no record. -/
theorem c4_overflow_is_a_parse_failure :
    (∀ (row : List String) (pd : PriceDistribution),
      mapRowToPriceDistribution row = .ok pd →
      ∀ col, col < 5 →
        decimalValue (row.getD col "") = some (pd.field col) ∧
          inWidth (widthOf col) (pd.field col)) ∧
    (∀ (row : List String) (col : Nat) (v : Int),
      col < 5 → decimalValue (row.getD col "") = some v → ¬ inWidth (widthOf col) v →
      ∀ pd, mapRowToPriceDistribution row ≠ .ok pd) := by
  have key : ∀ (row : List String) (pd : PriceDistribution),
      mapRowToPriceDistribution row = .ok pd →
      ∀ col, col < 5 →
        decimalValue (row.getD col "") = some (pd.field col) ∧
          inWidth (widthOf col) (pd.field col) := by
    intro row pd hok col hcol
    obtain ⟨⟨hlen, hcols⟩, rfl⟩ := (mapRow_ok_iff row pd).1 hok
    obtain ⟨v, hv, hw⟩ := hcols col hcol
    have hci := columnInt_of_value row col v (by omega) hv
    have hf : (recordOfRow row).field col = v := by
      rcases col with _ | _ | _ | _ | _ | col
      · simp [PriceDistribution.field, recordOfRow, hci]
      · simp [PriceDistribution.field, recordOfRow, hci]
      · simp [PriceDistribution.field, recordOfRow, hci]
      · simp [PriceDistribution.field, recordOfRow, hci]
      · simp [PriceDistribution.field, recordOfRow, hci]
      · omega
    rw [hf]
    exact ⟨hv, hw⟩
  refine ⟨key, ?_⟩
  intro row col v hcol hv hnot pd hok
  obtain ⟨h1, h2⟩ := key row pd hok col hcol
  rw [hv] at h1
  simp only [Option.some.injEq] at h1
  rw [← h1] at h2
  exact hnot h2

/-- Claim C4 at the rows `1,2,100,500,3` (a record with the exact values) and
`32768,2,100,500,3` (32768 is outside 16 bits: no record). -/
theorem c4_overflow_is_a_parse_failure_witness :
    (decimalValue "100" = some 100 ∧ inWidth 32 100) ∧
    (decimalValue "32768" = some 32768 ∧ ¬ inWidth 16 32768 ∧
      ∀ pd, mapRowToPriceDistribution ["32768", "2", "100", "500", "3"] ≠ .ok pd) :=
  ⟨c4_overflow_is_a_parse_failure.1 ["1", "2", "100", "500", "3"] ⟨1, 2, 100, 500, 3⟩
      (by decide) 2 (by decide),
    by decide, by decide,
    c4_overflow_is_a_parse_failure.2 ["32768", "2", "100", "500", "3"] 0 32768
      (by decide) (by decide) (by decide)⟩

theorem split_at_position (event : List S3EventRecord) (k : Nat) (n : S3EventRecord)
    (h : event.get? k = some n) : ∃ pre post, event = pre ++ n :: post ∧ pre.length = k := by
  induction event generalizing k with
  | nil => simp at h
  | cons x xs ih =>
    cases k with
    | zero =>
      simp only [List.get?_cons_zero, Option.some.injEq] at h
      exact ⟨[], xs, by simp [h], rfl⟩
    | succ k =>
      simp only [List.get?_cons_succ] at h
      obtain ⟨pre, post, hx, hl⟩ := ih k h
      exact ⟨x :: pre, post, by simp [hx], by simp [hl]⟩

theorem closedStreams_eq_nil (evs : List Event) (h : ∀ e ∈ evs, ∀ j, e ≠ .closed j) :
    closedStreams evs = [] := by
  induction evs with
  | nil => rfl
  | cons e evs ih =>
    have he := h e (List.mem_cons_self _ _)
    have ih' := ih (fun x hx => h x (List.mem_cons_of_mem _ hx))
    cases e <;> simp_all [closedStreams]

theorem closedStreams_append (a b : List Event) :
    closedStreams (a ++ b) = closedStreams a ++ closedStreams b := by
  simp [closedStreams, List.filterMap_append]

theorem closedStreams_map_closed (ds : List Nat) :
    closedStreams (ds.map Event.closed) = ds := by
  induction ds with
  | nil => rfl
  | cons d ds ih =>
    simp only [closedStreams, List.map_cons, List.filterMap_cons] at ih ⊢
    rw [ih]

/-- Claim C6: when the file of a notification has a malformed data row (too few
columns, or a column among the first five that is not a base-10 integer
within the bit width of its field), `ReplacePriceDistributions` is never
called for that notification, however many valid rows come before the bad
one. -/
theorem c6_no_partial_batch_is_written (w : World) (event : List S3EventRecord) (k : Nat)
    (n : S3EventRecord) (key : String) (body : List RawRecord)
    (hn : event.get? k = some n) (hkey : QueryUnescape n.Key = .ok key)
    (hbody : w.GetObject k n.Bucket key = .ok body)
    (hbad : ∃ x ∈ body.tail, malformedRow x.fields) :
    writesOf k (handler w event).trace = [] := by
  obtain ⟨pre, post, rfl, rfl⟩ := split_at_position event k n hn
  rw [handler_writesOf_at]
  split
  · rw [stepOf_fetched w _ n key body hkey hbody]
    cases hp : parseFile body with
    | batch b =>
      exfalso
      obtain ⟨hdr, data, rfl, hall, _⟩ := parseFile_batch body b hp
      obtain ⟨x, hx, hmal⟩ := hbad
      exact not_wellFormed_of_malformed _ hmal (hall x hx).2
    | _ => rfl
  · rfl

/-- Claim C6 at a file with two valid rows followed by `1,2,abc,500,3`. -/
theorem c6_no_partial_batch_is_written_witness :
    (∃ x ∈ [rec header5, rec ["1", "2", "100", "500", "3"], rec ["1", "2", "101", "250", "10"],
        rec ["1", "2", "abc", "500", "3"]].tail, malformedRow x.fields) ∧
    writesOf 0 (handler
      (worldOf [[rec header5, rec ["1", "2", "100", "500", "3"],
        rec ["1", "2", "101", "250", "10"], rec ["1", "2", "abc", "500", "3"]]] [])
      [⟨"bucket", "distributions.csv"⟩]).trace = [] :=
  have hbad : ∃ x ∈ [rec header5, rec ["1", "2", "100", "500", "3"],
      rec ["1", "2", "101", "250", "10"], rec ["1", "2", "abc", "500", "3"]].tail,
      malformedRow x.fields :=
    ⟨rec ["1", "2", "abc", "500", "3"], by simp,
      Or.inr ⟨2, by decide, fun v hv => by
        have h := hv.1
        rw [show decimalValue ((rec ["1", "2", "abc", "500", "3"]).fields.getD 2 "") = none
          from by decide] at h
        exact absurd h (by simp)⟩⟩
  ⟨hbad, c6_no_partial_batch_is_written _ _ 0 ⟨"bucket", "distributions.csv"⟩
    "distributions.csv" _ (by decide) (by decide) (by rfl) hbad⟩

/-- Claim C7, as the code has it: of the header only the number of columns is
used. Two streams whose readable headers have the same number of columns and
whose data lines are identical are parsed to the same outcome, whatever the
headers contain. -/
theorem c7_header_counts_only_by_its_columns (h1 h2 : List String) (data : List RawRecord)
    (h : h1.length = h2.length) : parseFile (rec h1 :: data) = parseFile (rec h2 :: data) := by
  rw [parseFile_header, parseFile_header, h]

/-- Claim C7, as the code has it, at two headers of five columns. -/
theorem c7_header_counts_only_by_its_columns_witness :
    header5.length = ["a", "b", "c", "d", "e"].length ∧
    parseFile (rec header5 :: [rec ["1", "2", "100", "500", "3"]]) =
      parseFile (rec ["a", "b", "c", "d", "e"] :: [rec ["1", "2", "100", "500", "3"]]) :=
  ⟨by decide, c7_header_counts_only_by_its_columns _ _ _ (by decide)⟩

/-- Claim C7 fails as stated: with the same data line `1,2,100,500,3`, a header
of five columns gives a batch and a header of six columns gives the error
`ErrFieldCount` (the first record read fixes `FieldsPerRecord`). -/
theorem c7_header_column_count_changes_the_outcome :
    parseFile [rec ["a", "b", "c", "d", "e"], rec ["1", "2", "100", "500", "3"]] =
      .batch [⟨1, 2, 100, 500, 3⟩] ∧
    parseFile [rec ["a", "b", "c", "d", "e", "f"], rec ["1", "2", "100", "500", "3"]] =
      .rowError .fieldCount := by
  decide

/-- Claim C8: when the key of a notification fails to decode, nothing is fetched,
parsed or written for it or for any notification after it (the trace is that
of the notifications before it), and `handler`, which reaches the notification
when the ones before it succeed, returns the decode error. -/
theorem c8_decode_error_aborts_the_batch (w : World) (pre post : List S3EventRecord)
    (n : S3EventRecord) (cause : String) (hdec : QueryUnescape n.Key = .error cause) :
    (handler w (pre ++ n :: post)).trace = (handler w pre).trace ∧
    (∀ ev ∈ (handler w (pre ++ n :: post)).trace, ev.index < pre.length) ∧
    ((handler w pre).outcome = .returned none →
      (handler w (pre ++ n :: post)).outcome = .returned (some (.decoding cause))) := by
  have hstep := stepOf_decode_error w pre.length n cause hdec
  have htrace : (handler w (pre ++ n :: post)).trace = (handler w pre).trace := by
    by_cases hreach : (handler w pre).outcome = .returned none
    · obtain ⟨hdb, hnil⟩ := handler_nil w pre hreach
      rw [handler_append_ok w pre _ hreach, handler_eq w pre hdb, runFrom_cons, hstep, hnil]
      simp [Run.leave]
    · rw [handler_append_stop w pre _ hreach]
  refine ⟨htrace, ?_, ?_⟩
  · intro ev hev
    rw [htrace] at hev
    exact handler_trace_index w pre ev hev
  · intro hreach
    apply handler_outcome_at w pre post n _ hreach
    rw [hstep]

/-- Claim C8 at the key `%zz`, second in a batch of three. -/
theorem c8_decode_error_aborts_the_batch_witness :
    QueryUnescape "%zz" = .error "%zz" ∧
    (handler (worldOf [[rec header5], [rec header5], [rec header5]] [])
      ([⟨"bucket", "a.csv"⟩] ++ ⟨"bucket", "%zz"⟩ :: [⟨"bucket", "c.csv"⟩])).outcome =
        .returned (some (.decoding "%zz")) :=
  ⟨by decide,
    (c8_decode_error_aborts_the_batch (worldOf [[rec header5], [rec header5], [rec header5]] [])
      [⟨"bucket", "a.csv"⟩] [⟨"bucket", "c.csv"⟩] ⟨"bucket", "%zz"⟩ "%zz" (by decide)).2.2
      (by decide)⟩

/-- Claim C9: for a notification `handler` reaches whose file is empty, `handler`
returns the header error and `ReplacePriceDistributions` is not called for it;
a file with a header and no data rows is parsed to the empty batch, which is
written in one call, and `handler` goes on (it returns `nil` when this was
the last notification and the write succeeded). -/
theorem c9_empty_file_and_header_only_file (w : World) (pre post : List S3EventRecord)
    (n : S3EventRecord) (key : String)
    (hreach : (handler w pre).outcome = .returned none)
    (hkey : QueryUnescape n.Key = .ok key) :
    (parseFile [] = .headerError .eof ∧
      (w.GetObject pre.length n.Bucket key = .ok [] →
        (handler w (pre ++ n :: post)).outcome = .returned (some (.header .eof)) ∧
        writesOf pre.length (handler w (pre ++ n :: post)).trace = [])) ∧
    ∀ hdr : List String,
      parseFile [rec hdr] = .batch [] ∧
      (w.GetObject pre.length n.Bucket key = .ok [rec hdr] →
        writesOf pre.length (handler w (pre ++ n :: post)).trace = [[]] ∧
        (w.Replace pre.length [] = none →
          (handler w (pre ++ [n])).outcome = .returned none)) := by
  have hempty : parseFile [] = .headerError .eof := rfl
  have hhdr : ∀ hdr : List String, parseFile [rec hdr] = .batch [] := by
    intro hdr
    rw [parseFile_header]
    rfl
  refine ⟨⟨hempty, ?_⟩, ?_⟩
  · intro hbody
    have hstep := stepOf_fetched w pre.length n key _ hkey hbody
    rw [hempty] at hstep
    simp only at hstep
    refine ⟨?_, ?_⟩
    · apply handler_outcome_at w pre post n _ hreach
      rw [hstep]
    · rw [handler_writesOf_at, if_pos hreach, hstep]
      rfl
  · intro hdr
    refine ⟨hhdr hdr, ?_⟩
    intro hbody
    have hstep := stepOf_fetched w pre.length n key _ hkey hbody
    rw [hhdr hdr] at hstep
    simp only at hstep
    refine ⟨?_, ?_⟩
    · rw [handler_writesOf_at, if_pos hreach, hstep]
      cases w.Replace pre.length [] <;> simp [writesOf]
    · intro hw
      rw [hw] at hstep
      rw [handler_append_ok w pre _ hreach, leave_outcome, runFrom_cons, hstep]
      simp [runFrom]

/-- Claim C9 at an empty file and at a file with only a header. -/
theorem c9_empty_file_and_header_only_file_witness :
    (handler (worldOf [[]] []) ([] ++ ⟨"bucket", "empty.csv"⟩ :: [])).outcome =
      .returned (some (.header .eof)) ∧
    writesOf 0 (handler (worldOf [[rec header5]] [])
      ([] ++ ⟨"bucket", "header.csv"⟩ :: [])).trace = [[]] :=
  ⟨((c9_empty_file_and_header_only_file (worldOf [[]] []) [] []
      ⟨"bucket", "empty.csv"⟩ "empty.csv" (by decide) (by decide)).1.2 (by rfl)).1,
    (((c9_empty_file_and_header_only_file (worldOf [[rec header5]] []) [] []
      ⟨"bucket", "header.csv"⟩ "header.csv" (by decide) (by decide)).2 header5).2 (by rfl)).1⟩

/-- Claim C10, as the code has it: on every way `handler` stops other than the
exit of the process in `log.Fatalf`, every stream opened during the invocation
has been closed, once, the last opened first. -/
theorem c10_streams_closed_unless_fatal (w : World) (event : List S3EventRecord)
    (h : ∀ m, (handler w event).outcome ≠ .fatal m) :
    closedStreams (handler w event).trace = (openedStreams (handler w event).trace).reverse := by
  cases hdb : w.NewDatabase with
  | some err => simp [handler, hdb, closedStreams, openedStreams]
  | none =>
    rw [handler_eq w event hdb] at h ⊢
    rw [leave_outcome] at h
    rw [leave_opened, runFrom_opened, List.reverse_reverse]
    have hcl := closedStreams_eq_nil (runFrom w 0 event).1
      (fun e he => (runFrom_index w 0 event e he).2)
    generalize (runFrom w 0 event).2.2 = o at h
    cases o with
    | fatal m => exact absurd rfl (h m)
    | returned err =>
      simp only [Run.leave, closedStreams_append, hcl, closedStreams_map_closed,
        List.nil_append]
    | panicked m =>
      simp only [Run.leave, closedStreams_append, hcl, closedStreams_map_closed,
        List.nil_append]

/-- Claim C10, as the code has it, at a batch of two files that are both
written: the streams 0 and 1 are opened, and closed in the order 1, 0. -/
theorem c10_streams_closed_unless_fatal_witness :
    closedStreams (handler (worldOf [[rec header5], [rec header5]] [])
      [⟨"bucket", "a.csv"⟩, ⟨"bucket", "b.csv"⟩]).trace = [1, 0] := by
  rw [c10_streams_closed_unless_fatal _ _ (fun m => by
    rw [show (handler (worldOf [[rec header5], [rec header5]] [])
      [⟨"bucket", "a.csv"⟩, ⟨"bucket", "b.csv"⟩]).outcome = .returned none from by decide]
    simp)]
  decide

/-- Claim C10 fails as stated: when the second of two files has the row
`1,2,abc,500,3`, the process exits in `log.Fatalf` with the streams of both
notifications opened and neither closed. -/
theorem c10_fatal_exit_leaves_streams_open :
    (handler (worldOf [[rec header5, rec ["1", "2", "100", "500", "3"]],
        [rec header5, rec ["1", "2", "abc", "500", "3"]]] [])
      [⟨"bucket", "a.csv"⟩, ⟨"bucket", "b.csv"⟩]).outcome =
        .fatal "could not parse integer 'abc'" ∧
    openedStreams (handler (worldOf [[rec header5, rec ["1", "2", "100", "500", "3"]],
        [rec header5, rec ["1", "2", "abc", "500", "3"]]] [])
      [⟨"bucket", "a.csv"⟩, ⟨"bucket", "b.csv"⟩]).trace = [0, 1] ∧
    closedStreams (handler (worldOf [[rec header5, rec ["1", "2", "100", "500", "3"]],
        [rec header5, rec ["1", "2", "abc", "500", "3"]]] [])
      [⟨"bucket", "a.csv"⟩, ⟨"bucket", "b.csv"⟩]).trace = [] := by
  decide

/-! ## The loop against the four steps of the specification -/

theorem stepOf_attempt (w : World) (i : Nat) (n : S3EventRecord) :
    (stepOf w i n).2.2 = (attempt w i n).outcome ∧
      writeCalls (stepOf w i n).1 = (attempt w i n).calls i := by
  unfold stepOf attempt
  generalize QueryUnescape n.Key = q
  cases q with
  | error err => simp [Attempt.outcome, Attempt.calls, writeCalls]
  | ok key =>
    simp only
    generalize w.GetObject i n.Bucket key = g
    cases g with
    | error err => simp [Attempt.outcome, Attempt.calls, writeCalls]
    | ok body =>
      simp only
      generalize parseFile body = pf
      cases pf with
      | batch b =>
        simp only
        generalize w.Replace i b = rp
        cases rp <;> simp [Attempt.outcome, Attempt.calls, writeCalls]
      | _ => simp [Attempt.outcome, Parsed.outcome, Attempt.calls, writeCalls]

theorem attempt_outcome_none (w : World) (i : Nat) (n : S3EventRecord)
    (h : (attempt w i n).outcome = none) : ∃ b, attempt w i n = .succeeded b := by
  unfold attempt at h ⊢
  generalize QueryUnescape n.Key = q at h ⊢
  cases q with
  | error err => simp [Attempt.outcome] at h
  | ok key =>
    simp only at h ⊢
    generalize w.GetObject i n.Bucket key = g at h ⊢
    cases g with
    | error err => simp [Attempt.outcome] at h
    | ok body =>
      simp only at h ⊢
      generalize parseFile body = pf at h ⊢
      cases pf with
      | batch b =>
        simp only at h ⊢
        generalize w.Replace i b = rp at h ⊢
        cases rp with
        | none => exact ⟨b, rfl⟩
        | some e => simp [Attempt.outcome] at h
      | _ => simp [Attempt.outcome, Parsed.outcome] at h

theorem writeCalls_append (a b : List Event) :
    writeCalls (a ++ b) = writeCalls a ++ writeCalls b := by
  simp [writeCalls, List.filterMap_append]

theorem leave_writeCalls (st : Run) (o : Outcome) :
    writeCalls (st.leave o).trace = writeCalls st.trace := by
  cases o <;> simp [Run.leave, writeCalls, List.filterMap_append, List.filterMap_map]

/-- The loop from position `i` on, against the longest prefix of notifications
that succeed and the first that does not. -/
theorem runFrom_against_steps (w : World) (i : Nat) (records : List S3EventRecord) :
    writeCalls (runFrom w i records).1 =
      goodRun w i records ++
        (match firstFailure w i records with
          | some (k, a) => a.failedWrite k
          | none => []) ∧
    ((runFrom w i records).2.2 = .returned none ↔ firstFailure w i records = none) ∧
    (firstFailure w i records = none ↔ (goodRun w i records).length = records.length) ∧
    (∀ k a, firstFailure w i records = some (k, a) →
      k = i + (goodRun w i records).length ∧
      (∃ n, records.get? (goodRun w i records).length = some n ∧ attempt w k n = a) ∧
      (∀ ev ∈ (runFrom w i records).1, ev.index ≤ k) ∧
      a.outcome = some (runFrom w i records).2.2) := by
  induction records generalizing i with
  | nil => simp [runFrom, goodRun, firstFailure, writeCalls]
  | cons n rest ih =>
    obtain ⟨hout, hcalls⟩ := stepOf_attempt w i n
    obtain ⟨ih1, ih2, ih3, ih4⟩ := ih (i + 1)
    rw [runFrom_cons]
    cases ha : attempt w i n with
    | succeeded b =>
      rw [ha] at hout hcalls
      simp only [Attempt.outcome] at hout
      simp only [Attempt.calls] at hcalls
      simp only [hout, goodRun, firstFailure, ha, writeCalls_append, hcalls, ih1,
        List.length_cons, List.cons_append, List.nil_append, List.singleton_append,
        true_and]
      refine ⟨ih2, ?_, ?_⟩
      · rw [ih3]; omega
      · intro k a hk
        obtain ⟨h1, ⟨m, hm, hma⟩, h3, h4⟩ := ih4 k a hk
        refine ⟨by omega, ⟨m, by simpa using hm, hma⟩, ?_, h4⟩
        intro ev hev
        rcases List.mem_append.1 hev with hev | hev
        · have := (stepOf_index w i n ev hev).1
          omega
        · exact h3 ev hev
    | decodeFailed e =>
      rw [ha] at hout hcalls
      simp only [Attempt.outcome] at hout
      simp only [Attempt.calls] at hcalls
      simp only [hout, goodRun, firstFailure, ha, hcalls, Attempt.failedWrite,
        List.length_nil, List.nil_append, true_and, reduceCtorEq, false_iff, iff_false,
        List.length_cons, Option.some.injEq, Prod.mk.injEq, and_imp]
      refine ⟨by simp, ?_⟩
      rintro k a rfl rfl
      refine ⟨by omega, ⟨n, by simp, ha⟩, ?_, by simp [Attempt.outcome]⟩
      intro ev hev
      have := (stepOf_index w _ n ev hev).1
      omega
    | fetchFailed e =>
      rw [ha] at hout hcalls
      simp only [Attempt.outcome] at hout
      simp only [Attempt.calls] at hcalls
      simp only [hout, goodRun, firstFailure, ha, hcalls, Attempt.failedWrite,
        List.length_nil, List.nil_append, true_and, reduceCtorEq, false_iff, iff_false,
        List.length_cons, Option.some.injEq, Prod.mk.injEq, and_imp]
      refine ⟨by simp, ?_⟩
      rintro k a rfl rfl
      refine ⟨by omega, ⟨n, by simp, ha⟩, ?_, by simp [Attempt.outcome]⟩
      intro ev hev
      have := (stepOf_index w _ n ev hev).1
      omega
    | writeFailed b e =>
      rw [ha] at hout hcalls
      simp only [Attempt.outcome] at hout
      simp only [Attempt.calls] at hcalls
      simp only [hout, goodRun, firstFailure, ha, hcalls, Attempt.failedWrite,
        List.length_nil, List.nil_append, true_and, reduceCtorEq, false_iff, iff_false,
        List.length_cons, Option.some.injEq, Prod.mk.injEq, and_imp]
      refine ⟨by simp, ?_⟩
      rintro k a rfl rfl
      refine ⟨by omega, ⟨n, by simp, ha⟩, ?_, by simp [Attempt.outcome]⟩
      intro ev hev
      have := (stepOf_index w _ n ev hev).1
      omega
    | parseFailed p =>
      have hne : p.outcome ≠ none := by
        intro hp
        have hnone : (attempt w i n).outcome = none := by rw [ha]; exact hp
        obtain ⟨b, hb⟩ := attempt_outcome_none w i n hnone
        rw [ha] at hb
        exact absurd hb (by simp)
      rw [ha] at hout hcalls
      simp only [Attempt.outcome] at hout
      simp only [Attempt.calls] at hcalls
      obtain ⟨o, ho⟩ := Option.ne_none_iff_exists'.1 hne
      have hso : (stepOf w i n).2.2 = some o := by rw [hout, ho]
      have hon : o ≠ .returned none := by
        intro h
        rw [h] at hso
        exact stepOf_outcome_ne w i n hso
      simp only [hso, goodRun, firstFailure, ha, hcalls, Attempt.failedWrite,
        List.length_nil, List.nil_append, true_and, reduceCtorEq, false_iff, iff_false,
        List.length_cons, Option.some.injEq, Prod.mk.injEq, and_imp]
      refine ⟨hon, ?_⟩
      rintro k a rfl rfl
      refine ⟨by omega, ⟨n, by simp, ha⟩, ?_, by simp [Attempt.outcome, ho]⟩
      intro ev hev
      have := (stepOf_index w _ n ev hev).1
      omega

/-- The `j`-th entry of the longest succeeding prefix is the `j`-th notification,
with the batch of its own file. -/
theorem goodRun_entry (w : World) (i : Nat) (records : List S3EventRecord) (j k : Nat)
    (b : List PriceDistribution) (h : (goodRun w i records).get? j = some (k, b)) :
    k = i + j ∧ ∃ n, records.get? j = some n ∧ attempt w (i + j) n = .succeeded b := by
  induction records generalizing i j with
  | nil => simp [goodRun] at h
  | cons n rest ih =>
    rw [goodRun] at h
    cases ha : attempt w i n with
    | succeeded b' =>
      rw [ha] at h
      simp only at h
      cases j with
      | zero =>
        simp only [List.get?_cons_zero, Option.some.injEq, Prod.mk.injEq] at h
        obtain ⟨rfl, rfl⟩ := h
        exact ⟨rfl, n, rfl, ha⟩
      | succ j =>
        simp only [List.get?_cons_succ] at h
        obtain ⟨hk, m, hm, hma⟩ := ih (i + 1) j h
        have e : i + 1 + j = i + (j + 1) := by omega
        rw [e] at hk hma
        exact ⟨hk, m, by simpa using hm, hma⟩
    | decodeFailed e => rw [ha] at h; simp at h
    | fetchFailed e => rw [ha] at h; simp at h
    | parseFailed p => rw [ha] at h; simp at h
    | writeFailed b' e => rw [ha] at h; simp at h

theorem handler_trace_le (w : World) (event : List S3EventRecord) (k : Nat)
    (hdb : w.NewDatabase = none) (h : ∀ ev ∈ (runFrom w 0 event).1, ev.index ≤ k)
    (ev : Event) (hev : ev ∈ (handler w event).trace) : ev.index ≤ k := by
  rw [handler_eq w event hdb] at hev
  have hin : ev ∈ (runFrom w 0 event).1 ∨ ev ∈ (runFrom w 0 event).2.1.map Event.closed := by
    generalize (runFrom w 0 event).2.2 = o at hev
    cases o <;> simp [Run.leave] at hev ⊢
    · exact hev
    · exact Or.inl hev
    · exact hev
  rcases hin with hin | hin
  · exact h ev hin
  · simp only [List.mem_map] at hin
    obtain ⟨d, hd, rfl⟩ := hin
    have hrev : d ∈ openedStreams (runFrom w 0 event).1 := by
      rw [runFrom_opened]; simpa using hd
    simp only [openedStreams, List.mem_filterMap] at hrev
    obtain ⟨e, he, hde⟩ := hrev
    have := h e he
    cases e <;> simp at hde
    subst hde
    simpa [Event.index] using this

/-- Claim C5, as the code has it. Once the database is opened: the calls of
`ReplacePriceDistributions` are, in arrival order, those of the longest prefix
of notifications whose decode, fetch, parse and write all succeed, one call
per notification, each with the batch of that notification's own file,
followed by the call that fails when the first failing notification fails in
its write. `handler` returns `nil` exactly when that prefix is the whole
batch. Otherwise there is a first failing notification: nothing is fetched,
parsed or written for any later one; when it fails in its decode, fetch,
header read, row read or write, `handler` returns that error, and when it
fails on a column that `parseIntOrCrash` rejects, the process exits in
`log.Fatalf` and `handler` returns nothing. -/
theorem c5_first_failure_stops_the_batch (w : World) (event : List S3EventRecord)
    (hdb : w.NewDatabase = none) :
    writeCalls (handler w event).trace =
      goodRun w 0 event ++
        (match firstFailure w 0 event with
          | some (k, a) => a.failedWrite k
          | none => []) ∧
    (∀ j k b, (goodRun w 0 event).get? j = some (k, b) →
      k = j ∧ ∃ n, event.get? j = some n ∧ attempt w j n = .succeeded b) ∧
    ((handler w event).outcome = .returned none ↔
      (goodRun w 0 event).length = event.length) ∧
    (firstFailure w 0 event = none ↔ (goodRun w 0 event).length = event.length) ∧
    (∀ k a, firstFailure w 0 event = some (k, a) →
      k = (goodRun w 0 event).length ∧
      (∃ n, event.get? k = some n ∧ attempt w k n = a) ∧
      (∀ ev ∈ (handler w event).trace, ev.index ≤ k) ∧
      (∀ e, a = .decodeFailed e →
        (handler w event).outcome = .returned (some (.decoding e))) ∧
      (∀ e, a = .fetchFailed e →
        (handler w event).outcome = .returned (some (.downloading e))) ∧
      (∀ e, a = .parseFailed (.headerError e) →
        (handler w event).outcome = .returned (some (.header e))) ∧
      (∀ e, a = .parseFailed (.rowError e) →
        (handler w event).outcome = .returned (some (.reading e))) ∧
      (∀ m, a = .parseFailed (.fatal m) → (handler w event).outcome = .fatal m) ∧
      (∀ b e, a = .writeFailed b e →
        (handler w event).outcome = .returned (some (.inserting e)))) := by
  obtain ⟨h1, h2, h3, h4⟩ := runFrom_against_steps w 0 event
  have hout : (handler w event).outcome = (runFrom w 0 event).2.2 := by
    rw [handler_eq w event hdb, leave_outcome]
  refine ⟨?_, ?_, ?_, h3, ?_⟩
  · rw [handler_eq w event hdb, leave_writeCalls]
    exact h1
  · intro j k b hj
    have := goodRun_entry w 0 event j k b hj
    simpa using this
  · rw [hout, h2, h3]
  · intro k a hk
    obtain ⟨hk1, ⟨n, hn, hna⟩, hk3, hk4⟩ := h4 k a hk
    have hk0 : k = (goodRun w 0 event).length := by omega
    rw [← hout] at hk4
    refine ⟨hk0, ⟨n, by rw [hk0]; exact hn, hna⟩, handler_trace_le w event k hdb hk3,
      ?_, ?_, ?_, ?_, ?_, ?_⟩
    · intro e ha
      rw [ha] at hk4
      simp only [Attempt.outcome, Option.some.injEq] at hk4
      exact hk4.symm
    · intro e ha
      rw [ha] at hk4
      simp only [Attempt.outcome, Option.some.injEq] at hk4
      exact hk4.symm
    · intro e ha
      rw [ha] at hk4
      simp only [Attempt.outcome, Parsed.outcome, Option.some.injEq] at hk4
      exact hk4.symm
    · intro e ha
      rw [ha] at hk4
      simp only [Attempt.outcome, Parsed.outcome, Option.some.injEq] at hk4
      exact hk4.symm
    · intro m ha
      rw [ha] at hk4
      simp only [Attempt.outcome, Parsed.outcome, Option.some.injEq] at hk4
      exact hk4.symm
    · intro b e ha
      rw [ha] at hk4
      simp only [Attempt.outcome, Option.some.injEq] at hk4
      exact hk4.symm

/-- Claim C5, as the code has it, at a batch of three files where the write of
the second fails: two calls are made, the third file is not looked at, and
the write error is returned. -/
theorem c5_first_failure_stops_the_batch_witness :
    (worldOf [[rec header5, rec ["1", "2", "100", "500", "3"]],
        [rec header5, rec ["1", "2", "101", "250", "10"]], [rec header5]] [1]).NewDatabase
      = none ∧
    writeCalls (handler (worldOf [[rec header5, rec ["1", "2", "100", "500", "3"]],
        [rec header5, rec ["1", "2", "101", "250", "10"]], [rec header5]] [1])
      [⟨"bucket", "a.csv"⟩, ⟨"bucket", "b.csv"⟩, ⟨"bucket", "c.csv"⟩]).trace =
      [(0, [⟨1, 2, 100, 500, 3⟩]), (1, [⟨1, 2, 101, 250, 10⟩])] := by
  refine ⟨rfl, ?_⟩
  rw [(c5_first_failure_stops_the_batch _ _ rfl).1]
  decide

/-- Claim C5 fails as stated. When the second of two files has the row
`1,2,abc,500,3`, the succeeding prefix is not the whole batch and yet
`handler` returns no error: the process exits in `log.Fatalf`. And when the
write of a single file fails, the call of `ReplacePriceDistributions` has
been made although no notification succeeds in all four steps. -/
theorem c5_failure_without_returned_error :
    ((goodRun (worldOf [[rec header5, rec ["1", "2", "100", "500", "3"]],
          [rec header5, rec ["1", "2", "abc", "500", "3"]]] []) 0
        [⟨"bucket", "a.csv"⟩, ⟨"bucket", "b.csv"⟩]).length ≠ 2 ∧
      ∀ err, (handler (worldOf [[rec header5, rec ["1", "2", "100", "500", "3"]],
          [rec header5, rec ["1", "2", "abc", "500", "3"]]] [])
        [⟨"bucket", "a.csv"⟩, ⟨"bucket", "b.csv"⟩]).outcome ≠ .returned err) ∧
    (goodRun (worldOf [[rec header5, rec ["1", "2", "100", "500", "3"]]] [0]) 0
        [⟨"bucket", "a.csv"⟩] = [] ∧
      writeCalls (handler (worldOf [[rec header5, rec ["1", "2", "100", "500", "3"]]] [0])
        [⟨"bucket", "a.csv"⟩]).trace = [(0, [⟨1, 2, 100, 500, 3⟩])]) := by
  refine ⟨⟨by decide, ?_⟩, by decide, by decide⟩
  intro err
  rw [show (handler (worldOf [[rec header5, rec ["1", "2", "100", "500", "3"]],
      [rec header5, rec ["1", "2", "abc", "500", "3"]]] [])
    [⟨"bucket", "a.csv"⟩, ⟨"bucket", "b.csv"⟩]).outcome = .fatal "could not parse integer 'abc'"
    from by decide]
  simp

end AthenaDistributions
